import Mathlib

/-!
# Verification of the companion-bridge adapter (src/adapter.ts)

Shallow embedding of the session/streaming core of the adapter:

* tool policy engine (`evaluateToolPolicy`, `DEFAULT_POLICY`),
* session-key derivation (`deriveSessionKey`),
* the per-request frame-consumption loop and the SSE chunk fan-out
  (`runC1`, `sseChunks`),
* the session state machine with its resolve/reject handles and timeouts
  (`stepSess`, `runSess`),
* the session pool with dead-sweep and LRU overflow eviction
  (`evictIfNeeded`, `getSessionModel`),
* the context manager's summary-compaction bookkeeping (`stepCtx`) and
  recovery injection (`wrapPromptWithContext`),
* the dispatcher's `!bridge` command routing (`handleBridgeRouting`).

Machine integers are modelled as `Nat` (token counts, timestamps and
percentages in the source are small non-negative JS numbers), strings as
`String`.  File contents read from disk and the JSON serialization of tool
inputs enter the model as explicit string parameters, because the source
only ever consumes them as strings.
-/

set_option maxRecDepth 4096

namespace CompanionBridge

/-! ## Executable string primitives

JS `toLowerCase`, `trim` and `startsWith` are modelled by executable
functions on the character list of a `String`, so that concrete runs of the
models reduce inside the kernel.  `lowerChar` maps the ASCII range exactly
as `Char.toLower` does (the adapter only compares ASCII tool names and the
literal `!bridge`). -/

/-- ASCII lowercase of one character (same mapping as `Char.toLower`). -/
def lowerChar (c : Char) : Char :=
  if 65 ≤ c.toNat ∧ c.toNat ≤ 90 then Char.ofNat (c.toNat + 32) else c

/-- JS `s.toLowerCase()` on the ASCII range. -/
def strToLower (s : String) : String := ⟨s.data.map lowerChar⟩

/-- JS `s.trim()`: strip leading and trailing whitespace. -/
def strTrim (s : String) : String :=
  ⟨((s.data.dropWhile Char.isWhitespace).reverse.dropWhile Char.isWhitespace).reverse⟩

/-- JS `s.startsWith(p)`. -/
def strStartsWith (s p : String) : Bool := p.data.isPrefixOf s.data

/-! ## Tool policy engine (src/adapter.ts lines 150-198) -/

/-- Action of a tool-policy rule: `"allow" | "deny" | "passthrough"`. -/
inductive ToolAction
  | allow
  | deny
  | passthrough
deriving DecidableEq, Repr

/-- Global tool mode `TOOL_MODE ∈ {auto, passthrough}`. -/
inductive ToolMode
  | auto
  | passthrough
deriving DecidableEq, Repr

/-- `ToolPolicyRule { tool, action, inputContains? }` (adapter.ts:150-154). -/
structure ToolPolicyRule where
  tool : String
  action : ToolAction
  inputContains : Option String
deriving DecidableEq, Repr

/-- Substring test on character lists: JS `hay.includes(needle)`. -/
def strContainsList (hay needle : List Char) : Bool :=
  match hay with
  | [] => needle.isEmpty
  | _ :: t => needle.isPrefixOf hay || strContainsList t needle

/-- JS `hay.includes(needle)` on strings. -/
def strContains (hay needle : String) : Bool :=
  strContainsList hay.data needle.data

/-- `DEFAULT_POLICY` (adapter.ts:156-164): five auto-allowed read-ish tools,
then a catch-all whose action follows `TOOL_MODE`. -/
def DEFAULT_POLICY (mode : ToolMode) : List ToolPolicyRule :=
  [ ⟨"Read", .allow, none⟩
  , ⟨"Glob", .allow, none⟩
  , ⟨"Grep", .allow, none⟩
  , ⟨"WebSearch", .allow, none⟩
  , ⟨"Task", .allow, none⟩
  , ⟨"*", (match mode with | .passthrough => .passthrough | .auto => .allow), none⟩ ]

/-- The second `continue` guard of `evaluateToolPolicy` (adapter.ts:190-194):
`rule.inputContains && !JSON.stringify(input).includes(rule.inputContains)`.
JS truthiness makes an empty `inputContains` string behave like `none`.
The tool input is represented by its JSON serialization `inputJson`,
the only form in which the source consumes it. -/
def ruleInputBlocks (rule : ToolPolicyRule) (inputJson : String) : Bool :=
  match rule.inputContains with
  | none => false
  | some sub => sub ≠ "" && !(strContains inputJson sub)

/-- First-match evaluation against the policy rule list (adapter.ts:183-198). -/
def evaluateToolPolicy (policy : List ToolPolicyRule) (toolName inputJson : String) :
    ToolAction :=
  match policy with
  | [] => .allow
  | rule :: rest =>
    if rule.tool ≠ "*" ∧ strToLower rule.tool ≠ strToLower toolName then
      evaluateToolPolicy rest toolName inputJson
    else if ruleInputBlocks rule inputJson then
      evaluateToolPolicy rest toolName inputJson
    else rule.action

/-- Rule-matching as worded by the claim: tool is `"*"` or equals the tool
name ignoring case, and there is no `input_contains` constraint or the JSON
serialization of the input contains that substring. -/
def claimRuleMatches (rule : ToolPolicyRule) (toolName inputJson : String) : Bool :=
  (rule.tool == "*" || strToLower rule.tool == strToLower toolName) &&
  (match rule.inputContains with
   | none => true
   | some sub => strContains inputJson sub)

/-! ## Session-key derivation (src/adapter.ts lines 1387-1401) -/

/-- The parts of an incoming chat-completions request that could conceivably
feed session-key derivation: the two recognized headers, the per-request
UUID the adapter mints, the body `model` field, and the concatenated
`system`-role message content. -/
structure ChatRequestMeta where
  xSessionKey : Option String
  xRequestId : Option String
  requestUuid : String
  model : Option String
  systemContent : String
deriving DecidableEq, Repr

/-- Steps ② and ③ of `deriveSessionKey` (adapter.ts:1396-1400):
`body.model?.trim()` is used when truthy, else `"default"`. -/
def modelBranch (r : ChatRequestMeta) : String :=
  match r.model with
  | some m => if strTrim m ≠ "" then "model:" ++ strTrim m else "default"
  | none => "default"

/-- `deriveSessionKey` (adapter.ts:1387-1401).  `req.headers.get` yields
`none` for an absent header; JS truthiness (`if (hdr)`) makes an empty
header value fall through to the model branch. -/
def deriveSessionKey (r : ChatRequestMeta) : String :=
  match r.xSessionKey with
  | some h => if h ≠ "" then "key:" ++ h else modelBranch r
  | none => modelBranch r

/-! ## Progress events and upstream frames (src/adapter.ts lines 385-390, 705-986)

`ProgressEvent` is the tagged union pushed to an attached SSE stream.
`CFrame` models one upstream Companion WebSocket frame, carrying exactly the
fields the handler reads.  For `permission_request` frames the human-readable
`detail` produced by `formatToolDetail` travels as frame data: it is an
opaque string that only ever lands inside a decoration chunk.  Status texts
of `thinking` events are likewise opaque to every claim; the context-warning
status string is abbreviated (the source interpolates a locale-formatted
token count into it). -/

/-- Progress events (adapter.ts:385-390). -/
inductive ProgressEvent
  | textDelta (text : String)
  | toolStart (tool detail : String)
  | toolResultE (tool : String) (success : Bool)
  | thinking (status : String)
  | turn (n : Nat)
deriving DecidableEq, Repr

/-- One content block of an `assistant` frame: `{ type, text? }`, with an
absent `text` modelled as `""` (both are falsy to the handler's
`block.type === "text" && block.text` test). -/
structure CBlock where
  btype : String
  btext : String
deriving DecidableEq, Repr

/-- Upstream Companion frames consumed during one request
(adapter.ts:711-986). -/
inductive CFrame
  | assistant (parentTool : Bool) (blocks : List CBlock) (usageIn usageOut : Nat)
  | streamEvent (parentTool : Bool) (etype : String) (blockType : Option String)
  | permissionReq (tool inputJson detail : String)
  | toolResultFrame (tool : String) (isErr : Bool)
  | resultFrame (isError : Bool) (errors : List String) (result : Option String)
      (usageIn usageOut : Nat)
  | otherFrame
deriving DecidableEq, Repr

/-- Per-request accumulator state threaded through `handleMessage` for one
in-flight request (the fields of `ManagedSession` that feed the response
text and the progress events).  `outcome` is the `text` field of the
`SessionResponse` once the pending promise has been resolved (by a `result`
frame or a passthrough `permission_request`); after that the stream is
detached and further frames of the request window are not processed. -/
structure C1State where
  currentText : String
  usageIn : Nat
  usageOut : Nat
  lastWarn : Nat
  currentTurns : Nat
  events : List ProgressEvent
  outcome : Option String
deriving DecidableEq, Repr

/-- Initial per-request accumulators (reset at `sendPrompt`, adapter.ts:515-520). -/
def initC1 : C1State :=
  { currentText := "", usageIn := 0, usageOut := 0, lastWarn := 0,
    currentTurns := 0, events := [], outcome := none }

/-- Text extraction from `assistant` content blocks (adapter.ts:741-748):
append every `type=text` block with truthy text, emitting a `text_delta`
progress event per block. -/
def assistantBlocksStep (st : C1State) (blocks : List CBlock) : C1State :=
  blocks.foldl
    (fun acc b =>
      if b.btype = "text" ∧ b.btext ≠ "" then
        { acc with currentText := acc.currentText ++ b.btext,
                   events := acc.events ++ [.textDelta b.btext] }
      else acc)
    st

/-- `Math.round(lastInput / 200000 * 100)` (adapter.ts:848-850), exact as a
rational rounded to the nearest integer. -/
def contextPct (lastInput : Nat) : Nat := (lastInput + 1000) / 2000

/-- Context-warning thresholds fired by one `result` frame
(adapter.ts:865-880): each of 50/70/85/95 fires once, when reached and not
yet fired. -/
def firedWarnings (pct lastWarn : Nat) : List Nat :=
  [50, 70, 85, 95].filter (fun t => pct ≥ t ∧ lastWarn < t)

/-- Abbreviated warning status text (the source interpolates emoji, the
percentage and a locale-formatted token count; the string is opaque to every
claim). -/
def warnStatus (pct : Nat) : String := "Context window: " ++ toString pct ++ "%"

/-- The `result` frame handler (adapter.ts:828-910) on the modelled fields:
fall back to result-level usage when no per-message usage was tracked, fire
the not-yet-fired context warnings, fill the text from joined errors or the
`result` field when nothing accumulated, and resolve the outcome. -/
def resultStep (st : C1State) (isError : Bool) (errors : List String)
    (result : Option String) (uIn uOut : Nat) : C1State :=
  let st1 :=
    if st.usageIn = 0 then { st with usageIn := uIn, usageOut := uOut } else st
  let pct := contextPct st1.usageIn
  let fired := firedWarnings pct st1.lastWarn
  let st2 := { st1 with
    lastWarn := fired.foldl max st1.lastWarn,
    events := st1.events ++ fired.map (fun _ => ProgressEvent.thinking (warnStatus pct)) }
  let text1 :=
    if isError ∧ errors ≠ [] then
      (if st2.currentText ≠ "" then st2.currentText
       else String.intercalate "\n" errors)
    else st2.currentText
  let text2 :=
    if text1 = "" then (match result with | some r => r | none => text1)
    else text1
  { st2 with currentText := text2, outcome := some text2 }

/-- One step of `handleMessage` (adapter.ts:711-986) restricted to the
per-request accumulators and the progress events of the current request.
Frames arriving after the pending promise was resolved fall outside the
request window (the SSE `onProgress` tap is detached on resolution) and are
not processed.  The tool-policy decision for `permission_request` frames is
computed by `evaluateToolPolicy` exactly as in the source. -/
def stepC1 (policy : List ToolPolicyRule) (st : C1State) (f : CFrame) : C1State :=
  match st.outcome with
  | some _ => st
  | none =>
    match f with
    | .assistant parentTool blocks uIn uOut =>
      if parentTool then st
      else
        let st1 := assistantBlocksStep st blocks
        let st2 := { st1 with
          usageIn := st1.usageIn + uIn,
          usageOut := st1.usageOut + uOut,
          currentTurns := st1.currentTurns + 1 }
        { st2 with events := st2.events ++ [.turn st2.currentTurns] }
    | .streamEvent parentTool etype blockType =>
      if parentTool then st
      else if etype = "content_block_start" ∧ blockType = some "thinking" then
        { st with events := st.events ++ [.thinking "Thinking..."] }
      else if etype = "content_block_start" ∧ blockType = some "text" then
        { st with events := st.events ++ [.thinking "Writing response..."] }
      else if etype = "message_start" then
        { st with events := st.events ++ [.thinking "Processing..."] }
      else st
    | .permissionReq tool inputJson detail =>
      match evaluateToolPolicy policy tool inputJson with
      | .allow => { st with events := st.events ++ [.toolStart tool detail] }
      | .deny => st
      | .passthrough => { st with outcome := some st.currentText }
    | .toolResultFrame tool isErr =>
      { st with events := st.events ++ [.toolResultE tool (!isErr)] }
    | .resultFrame isError errors result uIn uOut =>
      resultStep st isError errors result uIn uOut
    | .otherFrame => st

/-- Fold `stepC1` over the frames of one request window. -/
def runC1 (policy : List ToolPolicyRule) (fs : List CFrame) : C1State :=
  fs.foldl (stepC1 policy) initC1

/-! ## SSE chunk fan-out (`createLiveSSE`, src/adapter.ts lines 1447-1568) -/

/-- Classification of the `delta.content` chunks a live SSE emits: the
busy-wait status chunk sent by the optional `prefixFn`, a real text delta, the
three decoration kinds, and the finish-time full-text chunk. -/
inductive ChunkKind
  | statusK
  | deltaK
  | toolStartK
  | toolResK
  | thinkK
  | finalK
deriving DecidableEq, Repr

/-- One OpenAI-shaped SSE chunk carrying `delta.content`. -/
structure Chunk where
  kind : ChunkKind
  content : String
deriving DecidableEq, Repr

/-- The chunk produced by the `onProgress` subscription for one progress
event (adapter.ts:1500-1515).  A `text_delta` with empty text and a `turn`
event produce no chunk and leave the `streamed` flag untouched. -/
def chunkOfEvent (e : ProgressEvent) : Option Chunk :=
  match e with
  | .textDelta t => if t ≠ "" then some ⟨.deltaK, t⟩ else none
  | .toolStart _ detail => some ⟨.toolStartK, "\n\n_" ++ detail ++ "_\n\n"⟩
  | .toolResultE tool ok =>
    some ⟨.toolResK, "_" ++ (if ok then "✅" else "❌") ++ " " ++ tool ++ " done_\n"⟩
  | .thinking status => some ⟨.thinkK, "\n_🧠 " ++ status ++ "_\n"⟩
  | .turn _ => none

/-- Chunks produced by the progress events of a run; each of them sets the
`streamed` flag (adapter.ts:1497-1515). -/
def eventChunks (evs : List ProgressEvent) : List Chunk :=
  evs.filterMap chunkOfEvent

/-- All `delta.content` chunks of one successful live SSE
(adapter.ts:1447-1546) as a function of the progress events `evs` that were
*delivered to the stream's tap* while it was installed: the optional
busy-wait status chunk, the chunks of the delivered events, then — only
when nothing at all was streamed and the final text is non-empty — the
full text as a single chunk.  On the direct dispatch path
(adapter.ts:2086-2092) the tap is installed synchronously with `sendPrompt`
and detached at resolution, so the delivered events are exactly the current
request window's; on the busy-wait path (adapter.ts:1500, 2012-2040) the
tap is installed before the polling loop and also receives the tail of the
previous in-flight request's events, and the previous stream's finisher
(adapter.ts:1520) may null it, so there the delivered events are *not* one
request window. -/
def sseChunks (statusChunk : Option String) (evs : List ProgressEvent)
    (finalText : String) : List Chunk :=
  (match statusChunk with | some p => [⟨.statusK, p⟩] | none => []) ++
  eventChunks evs ++
  (if eventChunks evs = [] ∧ finalText ≠ "" then [⟨.finalK, finalText⟩] else [])

/-- Left-to-right concatenation of a list of strings (the order in which an
SSE client assembles `delta.content`). -/
def concatStrings : List String → String
  | [] => ""
  | s :: rest => s ++ concatStrings rest

/-- Concatenation of `delta.content` over the chunks the claim counts: all
chunks except the `tool_start` / `tool_result` / `thinking` decoration. -/
def claimConcat (cs : List Chunk) : String :=
  concatStrings ((cs.filter (fun c =>
    c.kind ≠ .toolStartK ∧ c.kind ≠ .toolResK ∧ c.kind ≠ .thinkK)).map Chunk.content)

/-- Contents of the text chunks proper: real deltas plus the finish-time
full-text chunk (excluding decoration and the busy-wait status chunk). -/
def textContents (cs : List Chunk) : List String :=
  (cs.filter (fun c => c.kind = .deltaK ∨ c.kind = .finalK)).map Chunk.content

/-- Concatenation over the text chunks proper. -/
def textConcat (cs : List Chunk) : String :=
  concatStrings (textContents cs)

/-- The texts of the `text_delta` events of a run, in order. -/
def deltaTexts (evs : List ProgressEvent) : List String :=
  evs.filterMap (fun e => match e with | .textDelta t => some t | _ => none)

/-- Concatenation of the `text_delta` event texts of a run. -/
def deltaConcat (evs : List ProgressEvent) : String :=
  concatStrings (deltaTexts evs)

/-- Invariant tying the per-request accumulator to the emitted progress
events: emitted deltas are non-empty, the text accumulator is always the
concatenation of the emitted deltas, and a resolved outcome equals that
concatenation whenever any delta text was emitted. -/
def C1Inv (st : C1State) : Prop :=
  (∀ t : String, ProgressEvent.textDelta t ∈ st.events → t ≠ "") ∧
  (st.outcome = none → st.currentText = deltaConcat st.events) ∧
  (∀ ft : String, st.outcome = some ft → deltaConcat st.events ≠ "" →
    ft = deltaConcat st.events)

/-! ## Session state machine and promise plumbing
(src/adapter.ts lines 396-444, 513-543, 657-703, 711-922, 1849-1861)

`SessCore` keeps the session `state`, the resolve/reject handle pair
(`pending`, the request id the handles settle — the source always sets and
clears `pendingResolve`/`pendingReject` together), the single
`timeoutHandle` slot, the socket's open flag, and — for counting settles —
the lists of request ids on which resolve respectively reject was called.
Request ids are allocated sequentially.  The two timeout callbacks differ
in the source and are modelled separately: `sendPrompt`'s rejects through
the *current* handle and clears it (adapter.ts:526-533); the
`waitForContinuation` timeout rejects through its *captured* `reject` and
leaves the handles set (adapter.ts:1855-1860). -/

/-- Session states (adapter.ts:396-401). -/
inductive SessState
  | connecting
  | ready
  | busy
  | waitingToolDecision
  | dead
deriving DecidableEq, Repr

/-- Which callback the single `timeoutHandle` slot would run. -/
inductive TimeoutKind
  | promptKind
  | contKind (req : Nat)
deriving DecidableEq, Repr

/-- Session core state for the promise-plumbing claims. -/
structure SessCore where
  st : SessState
  pending : Option Nat
  timeout : Option TimeoutKind
  wsOpen : Bool
  nextReq : Nat
  resolves : List Nat
  rejects : List Nat
deriving DecidableEq, Repr

/-- A fresh session right after `connectWs` starts (adapter.ts:478-508). -/
def initSess : SessCore :=
  { st := .connecting, pending := none, timeout := none, wsOpen := true,
    nextReq := 0, resolves := [], rejects := [] }

/-- Events acting on one session: pool operations, upstream frames, the WS
close callback and the firing of the armed timeout.  `framePermission`
carries the policy decision the handler computed; `toolContinuation` is the
dispatcher's tool-result forwarding followed by the `waitForContinuation`
handle installation (adapter.ts:1838-1861), one atomic pool operation at
the granularity of the claims. -/
inductive SessEv
  | sendPrompt
  | frameAssistant
  | frameCliConnected
  | framePermission (decision : ToolAction)
  | frameResult
  | frameCliDisconnected
  | wsClose
  | timeoutFire
  | toolContinuation
  | destroy
deriving DecidableEq, Repr

/-- One transition of the session core.  Each branch mirrors the
corresponding block of the source (line references in the comments). -/
def stepSess (s : SessCore) (e : SessEv) : SessCore :=
  match e with
  | .sendPrompt =>
    -- adapter.ts:513-543: install handles, go busy, arm the safety timeout;
    -- on a non-open socket reject immediately and mark dead, leaving the
    -- handles installed and the timeout armed.
    let r := s.nextReq
    let s1 := { s with pending := some r, st := .busy,
                       timeout := some .promptKind, nextReq := r + 1 }
    if s.wsOpen then s1 else { s1 with rejects := s1.rejects ++ [r], st := .dead }
  | .frameAssistant => s
  | .frameCliConnected =>
    -- adapter.ts:725-732
    if s.st = .connecting then { s with st := .ready } else s
  | .framePermission d =>
    -- adapter.ts:763-825
    match d with
    | .allow => s
    | .deny => s
    | .passthrough =>
      match s.pending with
      | some r =>
        { s with st := .waitingToolDecision, timeout := none,
                 resolves := s.resolves ++ [r], pending := none }
      | none =>
        { s with st := .waitingToolDecision, timeout := none, pending := none }
  | .frameResult =>
    -- adapter.ts:828-910: clear timeout, set ready, resolve, clear handles.
    match s.pending with
    | some r =>
      { s with timeout := none, st := .ready,
               resolves := s.resolves ++ [r], pending := none }
    | none => { s with timeout := none, st := .ready }
  | .frameCliDisconnected =>
    -- adapter.ts:913-922: fatal only while busy / waiting_tool_decision.
    if s.st = .busy ∨ s.st = .waitingToolDecision then
      match s.pending with
      | some r =>
        { s with st := .dead, rejects := s.rejects ++ [r], pending := none }
      | none => { s with st := .dead, pending := none }
    else s
  | .wsClose =>
    -- adapter.ts:688-701: reject only while busy / waiting_tool_decision,
    -- always end dead; the armed timeout is not cleared.
    if s.st = .busy ∨ s.st = .waitingToolDecision then
      match s.pending with
      | some r =>
        { s with st := .dead, wsOpen := false,
                 rejects := s.rejects ++ [r], pending := none }
      | none => { s with st := .dead, wsOpen := false, pending := none }
    else { s with st := .dead, wsOpen := false }
  | .timeoutFire =>
    match s.timeout with
    | none => s
    | some .promptKind =>
      -- adapter.ts:526-533: reject through the current handle, clear the
      -- handles, set ready.
      match s.pending with
      | some r =>
        { s with timeout := none, st := .ready,
                 rejects := s.rejects ++ [r], pending := none }
      | none => { s with timeout := none, st := .ready, pending := none }
    | some (.contKind r) =>
      -- adapter.ts:1855-1860: reject through the captured handle, set
      -- ready; the handles are NOT cleared.
      { s with timeout := none, st := .ready, rejects := s.rejects ++ [r] }
  | .toolContinuation =>
    -- adapter.ts:546-584 + 1849-1861: forward the decisions (state busy),
    -- then install fresh handles and arm the continuation timeout.
    let r := s.nextReq
    { s with st := .busy, pending := some r,
             timeout := some (.contKind r), nextReq := r + 1 }
  | .destroy =>
    -- adapter.ts:587-606: clear timers, close the socket, mark dead; the
    -- close callback then sees state dead and does not reject.
    { s with st := .dead, wsOpen := false, timeout := none }

/-- Fold a session event trace from a fresh session. -/
def runSess (tr : List SessEv) : SessCore :=
  tr.foldl stepSess initSess

/-- Number of settle calls (resolve plus reject) performed on the promise of
request `r`. -/
def settleCount (s : SessCore) (r : Nat) : Nat :=
  s.resolves.count r + s.rejects.count r

/-! ## Session pool (src/adapter.ts lines 464-510, 1009-1029) -/

/-- The pool-relevant projection of a `ManagedSession`. -/
structure PoolSession where
  key : String
  state : SessState
  lastActivityAt : Nat
deriving DecidableEq, Repr

/-- `s.state === "ready" || s.state === "dead"` — the states the overflow
loop may evict (adapter.ts:1017-1023). -/
def isEvictable (s : PoolSession) : Bool :=
  s.state == .ready || s.state == .dead

/-- `!oldest || s.lastActivityAt < oldest.lastActivityAt`
(adapter.ts:1020). -/
def olderThan (s : PoolSession) (acc : Option PoolSession) : Bool :=
  match acc with
  | none => true
  | some o => decide (s.lastActivityAt < o.lastActivityAt)

/-- The `for (const s of this.sessions.values())` scan that selects the
oldest evictable entry (adapter.ts:1016-1024), iterating in map insertion
order and replacing the candidate only on strictly smaller
`lastActivityAt`. -/
def findOldestAux (acc : Option PoolSession) : List PoolSession → Option PoolSession
  | [] => acc
  | s :: rest =>
    findOldestAux (if isEvictable s && olderThan s acc then some s else acc) rest

/-- Oldest evictable session of the pool, if any. -/
def findOldest (l : List PoolSession) : Option PoolSession := findOldestAux none l

/-- `destroySession` removes the entry with the given key from the map. -/
def removeKey (k : String) (l : List PoolSession) : List PoolSession :=
  l.filter (fun s => s.key ≠ k)

/-- The dead-cleanup pass of `evictIfNeeded` (adapter.ts:1010-1013). -/
def sweepDead (l : List PoolSession) : List PoolSession :=
  l.filter (fun s => s.state ≠ .dead)

/-- The `while (this.sessions.size >= MAX_SESSIONS)` overflow loop
(adapter.ts:1015-1028), with explicit fuel: each iteration removes one
entry, so fuel `l.length` is enough. -/
def evictLoop (maxSessions : Nat) : Nat → List PoolSession → List PoolSession
  | 0, l => l
  | fuel + 1, l =>
    if maxSessions ≤ l.length then
      match findOldest l with
      | some o => evictLoop maxSessions fuel (removeKey o.key l)
      | none => l
    else l

/-- `evictIfNeeded` (adapter.ts:1009-1029): sweep dead entries, then evict
oldest evictable entries while the pool is at or over the limit. -/
def evictIfNeeded (maxSessions : Nat) (l : List PoolSession) : List PoolSession :=
  evictLoop maxSessions (sweepDead l).length (sweepDead l)

/-- `getSession` at pool level (adapter.ts:468-510): a live entry for the
key is reused unchanged; otherwise `evictIfNeeded` runs and the freshly
created session is appended (a dead entry under the key was just swept). -/
def getSessionModel (maxSessions : Nat) (l : List PoolSession) (key : String)
    (fresh : PoolSession) : List PoolSession :=
  match l.find? (fun s => s.key == key) with
  | some s =>
    if s.state ≠ .dead then l else evictIfNeeded maxSessions l ++ [fresh]
  | none => evictIfNeeded maxSessions l ++ [fresh]

/-- Number of pool entries in the never-evicted working states. -/
def countWorking (l : List PoolSession) : Nat :=
  (l.filter (fun s =>
    s.state = .busy ∨ s.state = .waitingToolDecision ∨ s.state = .connecting)).length

/-! ## Context manager bookkeeping (src/adapter.ts lines 1138-1306, 1951-1957) -/

/-- The two context-percentage fields of a session that feed summary
compaction. -/
structure CtxState where
  lastSummaryPct : Nat
  lastKnownContextPct : Nat
deriving DecidableEq, Repr

/-- Operations touching those fields: a prompt passing through
`wrapPromptWithPostInstructions` (with the flag telling whether the active
strategy is `summary` or `hybrid`), a terminal `result` frame recording the
new context percentage (adapter.ts:850-851), and the `!bridge compact`
command (adapter.ts:1951-1957). -/
inductive CtxOp
  | wrapPost (summaryActive : Bool)
  | resultPct (pct : Nat)
  | bridgeCompact
deriving DecidableEq, Repr

/-- The summary-compaction update of `wrapPromptWithPostInstructions`
(adapter.ts:1255-1302): compute the next threshold
(`SUMMARY_TRIGGER_PCT` on the first compaction, else
`lastSummaryPct + SUMMARY_RECOMPACT_PCT`) and, when the known context
percentage reaches it, record the compaction level. -/
def wrapPostUpdate (triggerPct recompactPct : Nat) (s : CtxState) : CtxState :=
  let nextThreshold :=
    if s.lastSummaryPct = 0 then triggerPct else s.lastSummaryPct + recompactPct
  if s.lastKnownContextPct ≥ nextThreshold then
    { s with lastSummaryPct := s.lastKnownContextPct }
  else s

/-- One step of the compaction bookkeeping. -/
def stepCtx (triggerPct recompactPct : Nat) (s : CtxState) (op : CtxOp) : CtxState :=
  match op with
  | .wrapPost summaryActive =>
    if summaryActive then wrapPostUpdate triggerPct recompactPct s else s
  | .resultPct pct => { s with lastKnownContextPct := pct }
  | .bridgeCompact => { lastSummaryPct := 0, lastKnownContextPct := triggerPct }

/-- Fold a sequence of operations over the compaction state. -/
def runCtx (triggerPct recompactPct : Nat) (s : CtxState) (ops : List CtxOp) :
    CtxState :=
  ops.foldl (stepCtx triggerPct recompactPct) s

/-! ## Context recovery injection (src/adapter.ts lines 1138-1198) -/

/-- `CONTEXT_STRATEGY ∈ {none, summary, stateful, hybrid}`. -/
inductive Strategy
  | none
  | summary
  | stateful
  | hybrid
deriving DecidableEq, Repr

/-- The session flag the wrapper guards on. -/
structure RecSession where
  contextRecoveryDone : Bool
deriving DecidableEq, Repr

/-- The recovery block built around the summary file content
(adapter.ts:1152-1162). -/
def summaryBlock (summary : String) : String :=
  String.intercalate "\n"
    [ "═══ CONTEXT RECOVERY: CONVERSATION SUMMARY ═══"
    , "The following is a summary of our previous conversation before"
    , "this session started. Use it to maintain continuity. Do NOT"
    , "repeat this summary back to the user — just use it as context."
    , ""
    , summary
    , ""
    , "═══ END CONVERSATION SUMMARY ═══" ]

/-- The recovery block built around the state file content
(adapter.ts:1175-1185). -/
def stateBlock (state : String) : String :=
  String.intercalate "\n"
    [ "═══ CONTEXT RECOVERY: SESSION STATE ═══"
    , "The following is the structured state from your previous session."
    , "Resume from where you left off. Do NOT repeat this state back"
    , "to the user — just use it to continue seamlessly."
    , ""
    , state
    , ""
    , "═══ END SESSION STATE ═══" ]

/-- `wrapPromptWithContext` (adapter.ts:1138-1198).  The two file reads
(`getSummary` / `getState`, already trimmed and `""` on absence or read
failure) enter as parameters.  Strategy `none` returns before the
`contextRecoveryDone` marking; an already-recovered session returns
unchanged. -/
def wrapPromptWithContext (strategy : Strategy) (summaryContent stateContent : String)
    (prompt : String) (s : RecSession) : String × RecSession :=
  if strategy = .none then (prompt, s)
  else if s.contextRecoveryDone then (prompt, s)
  else
    let s' : RecSession := { contextRecoveryDone := true }
    let parts :=
      (if (strategy = .summary ∨ strategy = .hybrid) ∧ summaryContent ≠ "" then
        [summaryBlock summaryContent] else []) ++
      (if (strategy = .stateful ∨ strategy = .hybrid) ∧ stateContent ≠ "" then
        [stateBlock stateContent] else [])
    if parts = [] then (prompt, s')
    else (String.intercalate "\n\n" parts ++ "\n\n" ++ prompt, s')

/-! ## Dispatcher routing of `!bridge` commands
(src/adapter.ts lines 1782-2108) -/

/-- Upstream side effects of one chat-completions request: how many
Companion sessions were created (`pool.getSession` on a key with no live
entry creates one, adapter.ts:1820-1834), how many `user_message` frames
were sent (`sendPrompt`), whether the tool-results continuation branch was
taken (it forwards one `control_response` upstream per matched pending
permission and answers with the upstream continuation,
adapter.ts:1836-1878), and whether the response was synthesized locally by
the command interceptor. -/
structure ChatEffects where
  sessionsCreated : Nat
  userMessagesSent : Nat
  toolContinuationTaken : Bool
  localResponse : Bool
deriving DecidableEq, Repr

/-- The dispatcher's routing order (adapter.ts:1820-2101).  The session is
acquired from the pool first.  Then, when the request carries `role=tool`
messages with a `tool_call_id` (`toolResultCount` is their number,
`extractToolResults`, adapter.ts:1837) *and* the session is in
`waiting_tool_decision` (`sessionWaiting`), the tool-results branch
(adapter.ts:1838-1878) preempts everything that follows: the decisions are
forwarded upstream and the response is the upstream continuation, not a
local one.  Otherwise the latest user text is extracted (`userText`; when
empty a 400 error is returned, adapter.ts:1887-1897, modelled as the
non-local, nothing-sent branch), a prompt whose trimmed, lowercased text
starts with `!bridge` is answered locally via `formatCommandResponse` and
`sendPrompt` is never reached, and any other prompt is eventually sent
upstream as one `user_message`. -/
def handleBridgeRouting (poolHasLiveSession sessionWaiting : Bool)
    (toolResultCount : Nat) (userText : String) : ChatEffects :=
  let created := if poolHasLiveSession then 0 else 1
  if 0 < toolResultCount ∧ sessionWaiting then
    { sessionsCreated := created, userMessagesSent := 0,
      toolContinuationTaken := true, localResponse := false }
  else if userText = "" then
    { sessionsCreated := created, userMessagesSent := 0,
      toolContinuationTaken := false, localResponse := false }
  else if strStartsWith (strToLower (strTrim userText)) "!bridge" then
    { sessionsCreated := created, userMessagesSent := 0,
      toolContinuationTaken := false, localResponse := true }
  else
    { sessionsCreated := created, userMessagesSent := 1,
      toolContinuationTaken := false, localResponse := false }

/-- The handle/state relation that actually holds along every trace: a busy
session always has installed handles, and a session parked in
`waiting_tool_decision` never does (the passthrough transition resolves the
in-flight request and clears the handles as it enters that state). -/
def InvHandles (s : SessCore) : Prop :=
  (s.st = .busy → s.pending ≠ none) ∧
  (s.st = .waitingToolDecision → s.pending = none)

/-! ## Helper lemmas -/

theorem strContains_empty (hay : String) : strContains hay "" = true := by
  unfold strContains
  cases hay.data with
  | nil => rfl
  | cons c t => simp [strContainsList, List.isPrefixOf]

theorem claimRuleMatches_false_of_guard (rule : ToolPolicyRule) (tn inp : String)
    (h : rule.tool ≠ "*" ∧ strToLower rule.tool ≠ strToLower tn) :
    claimRuleMatches rule tn inp = false := by
  unfold claimRuleMatches
  have h1 : (rule.tool == "*") = false := by simpa using h.1
  have h2 : (strToLower rule.tool == strToLower tn) = false := by simpa using h.2
  simp [h1, h2]

theorem claimRuleMatches_false_of_blocks (rule : ToolPolicyRule) (tn inp : String)
    (h : ruleInputBlocks rule inp = true) :
    claimRuleMatches rule tn inp = false := by
  unfold claimRuleMatches
  unfold ruleInputBlocks at h
  cases hc : rule.inputContains with
  | none => rw [hc] at h; cases h
  | some sub =>
    rw [hc] at h
    have : strContains inp sub = false := by
      rcases Bool.and_eq_true_iff.mp h with ⟨-, h2⟩
      simpa using h2
    simp [this]

theorem claimRuleMatches_true (rule : ToolPolicyRule) (tn inp : String)
    (hg : ¬(rule.tool ≠ "*" ∧ strToLower rule.tool ≠ strToLower tn))
    (hb : ruleInputBlocks rule inp = false) :
    claimRuleMatches rule tn inp = true := by
  unfold claimRuleMatches
  have h1 : (rule.tool == "*" || strToLower rule.tool == strToLower tn) = true := by
    rcases not_and_or.mp hg with h | h
    · simp [not_not.mp h]
    · simp [not_not.mp h]
  rw [h1, Bool.true_and]
  unfold ruleInputBlocks at hb
  cases hc : rule.inputContains with
  | none => rfl
  | some sub =>
    rw [hc] at hb
    rcases Bool.and_eq_false_iff.mp hb with h | h
    · have : sub = "" := by simpa using h
      subst this
      exact strContains_empty inp
    · simpa using h

theorem evaluateToolPolicy_cons (rule : ToolPolicyRule) (rest : List ToolPolicyRule)
    (tn inp : String) :
    evaluateToolPolicy (rule :: rest) tn inp =
      if rule.tool ≠ "*" ∧ strToLower rule.tool ≠ strToLower tn then
        evaluateToolPolicy rest tn inp
      else if ruleInputBlocks rule inp then evaluateToolPolicy rest tn inp
      else rule.action := rfl

/-- `evaluateToolPolicy` is exactly first-match lookup with default `allow`,
where a rule "matches" in the sense worded by the spec. -/
theorem evaluateToolPolicy_eq_find (policy : List ToolPolicyRule) (tn inp : String) :
    evaluateToolPolicy policy tn inp =
      ((policy.find? (fun r => claimRuleMatches r tn inp)).map ToolPolicyRule.action).getD
        .allow := by
  induction policy with
  | nil => rfl
  | cons rule rest ih =>
    rw [evaluateToolPolicy_cons]
    by_cases hg : rule.tool ≠ "*" ∧ strToLower rule.tool ≠ strToLower tn
    · have hm := claimRuleMatches_false_of_guard rule tn inp hg
      rw [if_pos hg, List.find?_cons_of_neg _ (by simp [hm])]
      exact ih
    · by_cases hb : ruleInputBlocks rule inp = true
      · have hm := claimRuleMatches_false_of_blocks rule tn inp hb
        rw [if_neg hg, if_pos hb, List.find?_cons_of_neg _ (by simp [hm])]
        exact ih
      · have hm := claimRuleMatches_true rule tn inp hg (by simpa using hb)
        rw [if_neg hg, if_neg (by simpa using hb), List.find?_cons_of_pos _ (by simp [hm])]
        rfl

/-- Closed form of `evaluateToolPolicy` on the default policy: the five
read-ish tools are allowed and everything else follows the catch-all. -/
theorem eval_default_policy (mode : ToolMode) (tn inp : String) :
    evaluateToolPolicy (DEFAULT_POLICY mode) tn inp =
      (if strToLower tn ∈ (["read", "glob", "grep", "websearch", "task"] : List String)
       then ToolAction.allow
       else match mode with | .auto => .allow | .passthrough => .passthrough) := by
  have eRead : strToLower "Read" = "read" := rfl
  have eGlob : strToLower "Glob" = "glob" := rfl
  have eGrep : strToLower "Grep" = "grep" := rfl
  have eWeb : strToLower "WebSearch" = "websearch" := rfl
  have eTask : strToLower "Task" = "task" := rfl
  unfold DEFAULT_POLICY
  rw [evaluateToolPolicy_cons, evaluateToolPolicy_cons, evaluateToolPolicy_cons,
    evaluateToolPolicy_cons, evaluateToolPolicy_cons, evaluateToolPolicy_cons]
  by_cases h1 : strToLower tn = "read"
  · simp [ruleInputBlocks, eRead, h1]
  · by_cases h2 : strToLower tn = "glob"
    · simp [ruleInputBlocks, eRead, eGlob, h1, h2, Ne.symm h1]
    · by_cases h3 : strToLower tn = "grep"
      · simp [ruleInputBlocks, eRead, eGlob, eGrep, h1, h2, h3, Ne.symm h1, Ne.symm h2]
      · by_cases h4 : strToLower tn = "websearch"
        · simp [ruleInputBlocks, eRead, eGlob, eGrep, eWeb, h1, h2, h3, h4,
            Ne.symm h1, Ne.symm h2, Ne.symm h3]
        · by_cases h5 : strToLower tn = "task"
          · simp [ruleInputBlocks, eRead, eGlob, eGrep, eWeb, eTask, h1, h2, h3, h4, h5,
              Ne.symm h1, Ne.symm h2, Ne.symm h3, Ne.symm h4]
          · simp only [ruleInputBlocks, eRead, eGlob, eGrep, eWeb, eTask]
            rw [if_pos (by simp [Ne.symm h1]), if_pos (by simp [Ne.symm h2]),
              if_pos (by simp [Ne.symm h3]), if_pos (by simp [Ne.symm h4]),
              if_pos (by simp [Ne.symm h5]), if_neg (by simp), if_neg (by simp),
              if_neg (by simp [h1, h2, h3, h4, h5])]
            cases mode <;> rfl

/-- `stepSess` preserves the handle/state relation. -/
theorem stepSess_invHandles (s : SessCore) (e : SessEv) (h : InvHandles s) :
    InvHandles (stepSess s e) := by
  obtain ⟨hb, hw⟩ := h
  cases e with
  | sendPrompt =>
    by_cases hws : s.wsOpen = true <;>
      simp [stepSess, InvHandles, hws]
  | frameAssistant => exact ⟨hb, hw⟩
  | frameCliConnected =>
    by_cases hc : s.st = SessState.connecting <;>
      simp_all [stepSess, InvHandles]
  | framePermission d =>
    cases d with
    | allow => exact ⟨hb, hw⟩
    | deny => exact ⟨hb, hw⟩
    | passthrough =>
      cases hp : s.pending <;> simp [stepSess, hp, InvHandles]
  | frameResult =>
    cases hp : s.pending <;> simp [stepSess, hp, InvHandles]
  | frameCliDisconnected =>
    by_cases hst : s.st = SessState.busy ∨ s.st = SessState.waitingToolDecision
    · cases hp : s.pending <;> simp [stepSess, hp, hst, InvHandles]
    · simpa [stepSess, hst, InvHandles] using ⟨hb, hw⟩
  | wsClose =>
    by_cases hst : s.st = SessState.busy ∨ s.st = SessState.waitingToolDecision
    · cases hp : s.pending <;> simp [stepSess, hp, hst, InvHandles]
    · simp [stepSess, hst, InvHandles]
  | timeoutFire =>
    cases ht : s.timeout with
    | none => simpa [stepSess, ht, InvHandles] using ⟨hb, hw⟩
    | some k =>
      cases k with
      | promptKind => cases hp : s.pending <;> simp [stepSess, ht, hp, InvHandles]
      | contKind r => simp_all [stepSess, ht, InvHandles]
  | toolContinuation => simp [stepSess, InvHandles]
  | destroy => simp [stepSess, InvHandles]

/-- The handle/state relation holds after any event trace from any state
satisfying it. -/
theorem foldl_invHandles (tr : List SessEv) :
    ∀ s : SessCore, InvHandles s → InvHandles (tr.foldl stepSess s) := by
  induction tr with
  | nil => intro s h; exact h
  | cons e rest ih => intro s h; exact ih (stepSess s e) (stepSess_invHandles s e h)

/-- The compaction update itself never decreases `lastSummaryPct`. -/
theorem wrapPostUpdate_mono (triggerPct recompactPct : Nat) (s : CtxState) :
    s.lastSummaryPct ≤ (wrapPostUpdate triggerPct recompactPct s).lastSummaryPct := by
  unfold wrapPostUpdate
  by_cases h0 : s.lastSummaryPct = 0
  · rw [if_pos h0]
    by_cases hge : s.lastKnownContextPct ≥ triggerPct
    · rw [if_pos hge]; simp [h0]
    · rw [if_neg hge]
  · rw [if_neg h0]
    by_cases hge : s.lastKnownContextPct ≥ s.lastSummaryPct + recompactPct
    · rw [if_pos hge]
      exact Nat.le_trans (Nat.le_add_right _ _) hge
    · rw [if_neg hge]

/-- A single non-`compact` context operation never decreases `lastSummaryPct`. -/
theorem stepCtx_mono (triggerPct recompactPct : Nat) (s : CtxState) (op : CtxOp)
    (h : op ≠ .bridgeCompact) :
    s.lastSummaryPct ≤ (stepCtx triggerPct recompactPct s op).lastSummaryPct := by
  cases op with
  | wrapPost summaryActive =>
    cases summaryActive with
    | false => exact Nat.le_refl _
    | true =>
      simpa [stepCtx] using wrapPostUpdate_mono triggerPct recompactPct s
  | resultPct pct => exact Nat.le_refl _
  | bridgeCompact => exact absurd rfl h

/-- The candidate returned by the eviction scan came from the list or was
the incoming accumulator. -/
theorem findOldestAux_mem (l : List PoolSession) :
    ∀ (acc : Option PoolSession) (o : PoolSession),
      findOldestAux acc l = some o → acc = some o ∨ o ∈ l := by
  induction l with
  | nil => intro acc o h; exact Or.inl h
  | cons s rest ih =>
    intro acc o h
    rw [findOldestAux] at h
    rcases ih _ o h with hacc | hmem
    · by_cases hc : (isEvictable s && olderThan s acc) = true
      · rw [if_pos hc] at hacc
        have : s = o := Option.some.inj hacc
        exact Or.inr (this ▸ List.mem_cons_self s rest)
      · rw [if_neg hc] at hacc
        exact Or.inl hacc
    · exact Or.inr (List.mem_cons_of_mem s hmem)

/-- The candidate returned by the eviction scan is evictable (given an
evictable accumulator). -/
theorem findOldestAux_evictable (l : List PoolSession) :
    ∀ acc : Option PoolSession,
      (∀ a : PoolSession, acc = some a → isEvictable a = true) →
      ∀ o : PoolSession, findOldestAux acc l = some o → isEvictable o = true := by
  induction l with
  | nil => intro acc hacc o h; exact hacc o h
  | cons s rest ih =>
    intro acc hacc o h
    rw [findOldestAux] at h
    refine ih _ ?_ o h
    intro a ha
    by_cases hc : (isEvictable s && olderThan s acc) = true
    · rw [if_pos hc] at ha
      cases ha
      exact (Bool.and_eq_true_iff.mp hc).1
    · rw [if_neg hc] at ha
      exact hacc a ha

/-- The scan result only ever improves on the accumulator's
`lastActivityAt`. -/
theorem findOldestAux_le_acc (l : List PoolSession) :
    ∀ (a o : PoolSession),
      findOldestAux (some a) l = some o → o.lastActivityAt ≤ a.lastActivityAt := by
  induction l with
  | nil =>
    intro a o h
    cases h
    exact Nat.le_refl _
  | cons s rest ih =>
    intro a o h
    rw [findOldestAux] at h
    by_cases hc : (isEvictable s && olderThan s (some a)) = true
    · have hlt : s.lastActivityAt < a.lastActivityAt :=
        of_decide_eq_true (Bool.and_eq_true_iff.mp hc).2
      rw [if_pos hc] at h
      exact Nat.le_trans (ih s o h) (Nat.le_of_lt hlt)
    · rw [if_neg hc] at h
      exact ih a o h

/-- A scan fed a `some` accumulator never returns `none`. -/
theorem findOldestAux_some_ne_none (l : List PoolSession) :
    ∀ a : PoolSession, findOldestAux (some a) l ≠ none := by
  induction l with
  | nil => intro a h; cases h
  | cons s rest ih =>
    intro a h
    rw [findOldestAux] at h
    by_cases hc : (isEvictable s && olderThan s (some a)) = true
    · rw [if_pos hc] at h; exact ih s h
    · rw [if_neg hc] at h; exact ih a h

/-- The scan result has minimal `lastActivityAt` among the evictable
entries of the scanned list. -/
theorem findOldestAux_min (l : List PoolSession) :
    ∀ (acc : Option PoolSession) (o : PoolSession), findOldestAux acc l = some o →
      ∀ t ∈ l, isEvictable t = true → o.lastActivityAt ≤ t.lastActivityAt := by
  induction l with
  | nil => intro acc o _ t ht; cases ht
  | cons s rest ih =>
    intro acc o h t ht hev
    rw [findOldestAux] at h
    rcases List.mem_cons.mp ht with rfl | hmem
    · by_cases hc : (isEvictable t && olderThan t acc) = true
      · rw [if_pos hc] at h
        exact findOldestAux_le_acc rest t o h
      · cases hacc : acc with
        | none =>
          rw [hacc] at hc
          exact absurd (by simp [hev, olderThan]) hc
        | some a =>
          have hge : a.lastActivityAt ≤ t.lastActivityAt := by
            rw [hacc] at hc
            rcases Bool.and_eq_false_iff.mp (Bool.eq_false_iff.mpr hc) with h1 | h2
            · exact absurd hev (by simp [h1])
            · exact Nat.le_of_not_lt (of_decide_eq_false (by simpa [olderThan] using h2))
          rw [hacc, if_neg (by rw [hacc] at hc; exact hc)] at h
          exact Nat.le_trans (findOldestAux_le_acc rest a o h) hge
    · exact ih _ o h t hmem hev

/-- An empty scan result means no entry of the list was evictable. -/
theorem findOldestAux_none (l : List PoolSession) :
    ∀ acc : Option PoolSession, findOldestAux acc l = none →
      ∀ s ∈ l, isEvictable s = false := by
  induction l with
  | nil => intro acc _ s hs; cases hs
  | cons s rest ih =>
    intro acc h t ht
    rw [findOldestAux] at h
    rcases List.mem_cons.mp ht with rfl | hmem
    · by_cases hev : isEvictable t = true
      · exfalso
        by_cases hc : (isEvictable t && olderThan t acc) = true
        · rw [if_pos hc] at h
          exact findOldestAux_some_ne_none rest t h
        · cases hacc : acc with
          | none =>
            rw [hacc] at hc
            exact hc (by simp [hev, olderThan])
          | some a =>
            rw [if_neg hc, hacc] at h
            exact findOldestAux_some_ne_none rest a h
      · simpa using hev
    · exact ih _ h t hmem

/-- Removing a present key strictly shrinks the pool list. -/
theorem removeKey_length_lt (l : List PoolSession) (o : PoolSession) (ho : o ∈ l) :
    (removeKey o.key l).length < l.length := by
  unfold removeKey
  have h1 := List.Sublist.length_le
    (List.filter_sublist (p := fun s => decide (s.key ≠ o.key)) (l := l))
  rcases Nat.lt_or_ge (l.filter (fun s => decide (s.key ≠ o.key))).length l.length with h | h
  · exact h
  · exfalso
    have heq := Nat.le_antisymm h1 h
    have := (List.filter_length_eq_length
      (p := fun s => decide (s.key ≠ o.key)) (l := l)).mp heq o ho
    simp at this

/-- The overflow loop only removes entries. -/
theorem evictLoop_sublist (maxS : Nat) :
    ∀ (fuel : Nat) (l : List PoolSession), List.Sublist (evictLoop maxS fuel l) l := by
  intro fuel
  induction fuel with
  | zero => intro l; exact List.Sublist.refl l
  | succ fuel ih =>
    intro l
    rw [evictLoop]
    by_cases hc : maxS ≤ l.length
    · rw [if_pos hc]
      cases hf : findOldest l with
      | none => exact List.Sublist.refl l
      | some o =>
        exact List.Sublist.trans (ih (removeKey o.key l)) (List.filter_sublist l)
    · rw [if_neg hc]

/-- With enough fuel the overflow loop ends below the limit or with no
evictable entry left. -/
theorem evictLoop_post (maxS : Nat) :
    ∀ (fuel : Nat) (l : List PoolSession), l.length ≤ fuel →
      (evictLoop maxS fuel l).length < maxS ∨
        ∀ s ∈ evictLoop maxS fuel l, isEvictable s = false := by
  intro fuel
  induction fuel with
  | zero =>
    intro l hl
    have : l = [] := List.length_eq_zero.mp (Nat.le_zero.mp hl)
    subst this
    exact Or.inr (fun s hs => absurd hs (List.not_mem_nil s))
  | succ fuel ih =>
    intro l hl
    rw [evictLoop]
    by_cases hc : maxS ≤ l.length
    · rw [if_pos hc]
      cases hf : findOldest l with
      | none => exact Or.inr (findOldestAux_none l none hf)
      | some o =>
        have ho : o ∈ l := by
          rcases findOldestAux_mem l none o hf with h | h
          · cases h
          · exact h
        have hlen : (removeKey o.key l).length ≤ fuel :=
          Nat.lt_succ_iff.mp (Nat.lt_of_lt_of_le (removeKey_length_lt l o ho) hl)
        exact ih (removeKey o.key l) hlen
    · rw [if_neg hc]
      exact Or.inl (Nat.lt_of_not_le hc)

/-- `evictIfNeeded` ends below the limit or with no evictable entry left. -/
theorem evictIfNeeded_post (maxS : Nat) (l : List PoolSession) :
    (evictIfNeeded maxS l).length < maxS ∨
      ∀ s ∈ evictIfNeeded maxS l, isEvictable s = false :=
  evictLoop_post maxS (sweepDead l).length (sweepDead l) (Nat.le_refl _)

/-- `evictIfNeeded` only removes entries. -/
theorem evictIfNeeded_sublist (maxS : Nat) (l : List PoolSession) :
    List.Sublist (evictIfNeeded maxS l) l :=
  List.Sublist.trans (evictLoop_sublist maxS (sweepDead l).length (sweepDead l))
    (List.filter_sublist l)

/-- A non-evictable session is in one of the working states counted by
`countWorking`. -/
theorem working_of_not_evictable (s : PoolSession) (h : isEvictable s = false) :
    decide (s.state = SessState.busy ∨ s.state = SessState.waitingToolDecision ∨
      s.state = SessState.connecting) = true := by
  unfold isEvictable at h
  cases hs : s.state <;> rw [hs] at h <;> simp_all

/-- Size bound for the creation path of `getSession`: when fewer than
`MAX_SESSIONS` sessions are in the never-evicted working states, evicting
and appending the fresh session keeps the pool within the limit. -/
theorem create_path_le (maxS : Nat) (l : List PoolSession) (fresh : PoolSession)
    (hroom : countWorking l < maxS) :
    (evictIfNeeded maxS l ++ [fresh]).length ≤ maxS := by
  rw [List.length_append, List.length_singleton]
  rcases evictIfNeeded_post maxS l with h | h
  · omega
  · have hkeep : (evictIfNeeded maxS l).filter (fun s =>
        decide (s.state = SessState.busy ∨ s.state = SessState.waitingToolDecision ∨
          s.state = SessState.connecting)) = evictIfNeeded maxS l :=
      List.filter_eq_self.mpr (fun a ha => working_of_not_evictable a (h a ha))
    have hsub := List.Sublist.filter (fun s =>
        decide (s.state = SessState.busy ∨ s.state = SessState.waitingToolDecision ∨
          s.state = SessState.connecting))
      (evictIfNeeded_sublist maxS l)
    rw [hkeep] at hsub
    have hle : (evictIfNeeded maxS l).length ≤ countWorking l :=
      List.Sublist.length_le hsub
    omega

/-- `lastSummaryPct` is non-decreasing along any `compact`-free trace. -/
theorem runCtx_mono (triggerPct recompactPct : Nat) (ops : List CtxOp) :
    ∀ s : CtxState, CtxOp.bridgeCompact ∉ ops →
      s.lastSummaryPct ≤ (runCtx triggerPct recompactPct s ops).lastSummaryPct := by
  induction ops with
  | nil => intro s _; exact Nat.le_refl _
  | cons op rest ih =>
    intro s hni
    have h1 : op ≠ .bridgeCompact := fun he => hni (he ▸ List.mem_cons_self op rest)
    have h2 : CtxOp.bridgeCompact ∉ rest := fun he => hni (List.mem_cons_of_mem op he)
    exact Nat.le_trans (stepCtx_mono triggerPct recompactPct s op h1)
      (ih (stepCtx triggerPct recompactPct s op) h2)

theorem append_ne_empty_left (a b : String) (h : a ≠ "") : a ++ b ≠ "" := by
  intro he
  apply h
  have hd := congrArg String.data he
  rw [String.data_append] at hd
  have : a.data = [] := (List.append_eq_nil.mp hd).1
  cases a
  simp_all

theorem append_ne_empty_right (a b : String) (h : b ≠ "") : a ++ b ≠ "" := by
  intro he
  apply h
  have hd := congrArg String.data he
  rw [String.data_append] at hd
  have : b.data = [] := (List.append_eq_nil.mp hd).2
  cases b
  simp_all

theorem concatStrings_append (a b : List String) :
    concatStrings (a ++ b) = concatStrings a ++ concatStrings b := by
  induction a with
  | nil => simp [concatStrings]
  | cons s rest ih => simp [concatStrings, ih, String.append_assoc]

theorem concatStrings_ne_empty_of_mem (l : List String) (t : String) (ht : t ∈ l)
    (hne : t ≠ "") : concatStrings l ≠ "" := by
  induction l with
  | nil => cases ht
  | cons s rest ih =>
    rcases List.mem_cons.mp ht with rfl | hmem
    · exact append_ne_empty_left t (concatStrings rest) hne
    · exact append_ne_empty_right s (concatStrings rest) (ih hmem)

theorem deltaTexts_append (a b : List ProgressEvent) :
    deltaTexts (a ++ b) = deltaTexts a ++ deltaTexts b := by
  unfold deltaTexts
  exact List.filterMap_append a b _

theorem deltaTexts_thinking_list (l : List Nat) (msg : String) :
    deltaTexts (l.map (fun _ => ProgressEvent.thinking msg)) = [] := by
  induction l with
  | nil => rfl
  | cons n rest ih => exact ih

theorem deltaConcat_append_delta (evs : List ProgressEvent) (t : String) :
    deltaConcat (evs ++ [ProgressEvent.textDelta t]) = deltaConcat evs ++ t := by
  unfold deltaConcat
  rw [deltaTexts_append]
  simp [deltaTexts, concatStrings_append, concatStrings]

theorem deltaConcat_append_nondelta (evs : List ProgressEvent) (e : ProgressEvent)
    (he : ∀ t : String, e ≠ .textDelta t) :
    deltaConcat (evs ++ [e]) = deltaConcat evs := by
  unfold deltaConcat
  rw [deltaTexts_append]
  have : deltaTexts [e] = [] := by
    cases e with
    | textDelta t => exact absurd rfl (he t)
    | toolStart a b => rfl
    | toolResultE a b => rfl
    | thinking a => rfl
    | turn n => rfl
  rw [this, List.append_nil]

theorem mem_delta_append (evs evs' : List ProgressEvent) (t : String)
    (h : ProgressEvent.textDelta t ∈ evs ++ evs') :
    ProgressEvent.textDelta t ∈ evs ∨ ProgressEvent.textDelta t ∈ evs' :=
  List.mem_append.mp h

/-- `assistantBlocksStep` changes only `currentText` and `events`. -/
theorem assistantBlocksStep_other (blocks : List CBlock) :
    ∀ st : C1State,
      (assistantBlocksStep st blocks).outcome = st.outcome ∧
      (assistantBlocksStep st blocks).usageIn = st.usageIn ∧
      (assistantBlocksStep st blocks).usageOut = st.usageOut ∧
      (assistantBlocksStep st blocks).lastWarn = st.lastWarn ∧
      (assistantBlocksStep st blocks).currentTurns = st.currentTurns := by
  induction blocks with
  | nil => intro st; exact ⟨rfl, rfl, rfl, rfl, rfl⟩
  | cons b rest ih =>
    intro st
    have e : assistantBlocksStep st (b :: rest) =
        assistantBlocksStep
          (if b.btype = "text" ∧ b.btext ≠ "" then
            { st with currentText := st.currentText ++ b.btext,
                      events := st.events ++ [.textDelta b.btext] }
           else st) rest := by
      by_cases hc : b.btype = "text" ∧ b.btext ≠ "" <;>
        simp [assistantBlocksStep, List.foldl_cons, hc]
    rw [e]
    by_cases hc : b.btype = "text" ∧ b.btext ≠ ""
    · rw [if_pos hc]
      exact ih _
    · rw [if_neg hc]
      exact ih st

/-- `assistantBlocksStep` preserves the delta bookkeeping. -/
theorem assistantBlocksStep_inv (blocks : List CBlock) :
    ∀ st : C1State,
      (∀ t : String, ProgressEvent.textDelta t ∈ st.events → t ≠ "") →
      st.currentText = deltaConcat st.events →
      (∀ t : String, ProgressEvent.textDelta t ∈ (assistantBlocksStep st blocks).events →
        t ≠ "") ∧
      (assistantBlocksStep st blocks).currentText =
        deltaConcat (assistantBlocksStep st blocks).events := by
  induction blocks with
  | nil => intro st h1 h2; exact ⟨h1, h2⟩
  | cons b rest ih =>
    intro st h1 h2
    by_cases hc : b.btype = "text" ∧ b.btext ≠ ""
    · have e1 : assistantBlocksStep st (b :: rest) =
          assistantBlocksStep
            { st with currentText := st.currentText ++ b.btext,
                      events := st.events ++ [.textDelta b.btext] } rest := by
        simp [assistantBlocksStep, List.foldl_cons, if_pos hc]
      rw [e1]
      refine ih _ ?_ ?_
      · intro t ht
        rcases mem_delta_append _ _ t ht with hm | hm
        · exact h1 t hm
        · have : t = b.btext := by
            have h := List.mem_singleton.mp hm
            exact ProgressEvent.textDelta.inj h
          exact this ▸ hc.2
      · show st.currentText ++ b.btext = _
        rw [deltaConcat_append_delta, ← h2]
    · have e1 : assistantBlocksStep st (b :: rest) = assistantBlocksStep st rest := by
        simp [assistantBlocksStep, List.foldl_cons, if_neg hc]
      rw [e1]
      exact ih st h1 h2

/-- `C1Inv` only depends on the events, the text accumulator and the
outcome. -/
theorem C1Inv_of_fields (a b : C1State) (he : a.events = b.events)
    (hc : a.currentText = b.currentText) (ho : a.outcome = b.outcome)
    (h : C1Inv b) : C1Inv a := by
  unfold C1Inv at h ⊢
  rw [he, hc, ho]
  exact h

/-- Appending a non-delta progress event preserves the bookkeeping. -/
theorem inv_append_nondelta (st : C1State) (e : ProgressEvent)
    (he : ∀ t : String, e ≠ .textDelta t)
    (h1 : ∀ t : String, ProgressEvent.textDelta t ∈ st.events → t ≠ "")
    (h2 : st.outcome = none) (hct : st.currentText = deltaConcat st.events) :
    C1Inv { st with events := st.events ++ [e] } := by
  refine ⟨?_, ?_, ?_⟩
  · intro t ht
    rcases mem_delta_append _ _ t ht with hm | hm
    · exact h1 t hm
    · exact absurd (List.mem_singleton.mp hm).symm (he t)
  · intro _
    show st.currentText = _
    rw [deltaConcat_append_nondelta _ e he]
    exact hct
  · intro ft hft
    rw [show ({ st with events := st.events ++ [e] } : C1State).outcome
          = st.outcome from rfl, h2] at hft
    cases hft

/-- The `result` handler appends only warning `thinking` events. -/
theorem resultStep_events_ex (st : C1State) (isError : Bool) (errors : List String)
    (result : Option String) (uIn uOut : Nat) :
    ∃ (l : List Nat) (msg : String),
      (resultStep st isError errors result uIn uOut).events =
        st.events ++ l.map (fun _ => ProgressEvent.thinking msg) := by
  unfold resultStep
  by_cases hu : st.usageIn = 0
  · rw [if_pos hu]
    exact ⟨firedWarnings (contextPct uIn) st.lastWarn, warnStatus (contextPct uIn), rfl⟩
  · rw [if_neg hu]
    exact ⟨firedWarnings (contextPct st.usageIn) st.lastWarn,
      warnStatus (contextPct st.usageIn), rfl⟩

/-- The `result` handler resolves the outcome with the final text. -/
theorem resultStep_outcome (st : C1State) (isError : Bool) (errors : List String)
    (result : Option String) (uIn uOut : Nat) :
    (resultStep st isError errors result uIn uOut).outcome =
      some (resultStep st isError errors result uIn uOut).currentText := rfl

/-- When text had accumulated, the `result` handler keeps it unchanged. -/
theorem resultStep_text_of_ne (st : C1State) (isError : Bool) (errors : List String)
    (result : Option String) (uIn uOut : Nat) (hne : st.currentText ≠ "") :
    (resultStep st isError errors result uIn uOut).currentText = st.currentText := by
  unfold resultStep
  by_cases hu : st.usageIn = 0 <;>
    [rw [if_pos hu]; rw [if_neg hu]] <;>
    by_cases hie : (isError = true) ∧ errors ≠ [] <;>
    simp only [if_pos, if_neg, hie, if_true, if_false] <;>
    simp [hne]

theorem stepC1_resolved (policy : List ToolPolicyRule) (st : C1State) (f : CFrame)
    (ft : String) (ho : st.outcome = some ft) : stepC1 policy st f = st := by
  unfold stepC1
  rw [ho]

theorem stepC1_assistant_skip (policy : List ToolPolicyRule) (st : C1State)
    (blocks : List CBlock) (uIn uOut : Nat) (ho : st.outcome = none) :
    stepC1 policy st (.assistant true blocks uIn uOut) = st := by
  unfold stepC1
  rw [ho]
  rfl

theorem stepC1_assistant_none (policy : List ToolPolicyRule) (st : C1State)
    (blocks : List CBlock) (uIn uOut : Nat) (ho : st.outcome = none) :
    stepC1 policy st (.assistant false blocks uIn uOut) =
      { assistantBlocksStep st blocks with
        usageIn := (assistantBlocksStep st blocks).usageIn + uIn,
        usageOut := (assistantBlocksStep st blocks).usageOut + uOut,
        currentTurns := (assistantBlocksStep st blocks).currentTurns + 1,
        events := (assistantBlocksStep st blocks).events ++
          [.turn ((assistantBlocksStep st blocks).currentTurns + 1)] } := by
  unfold stepC1
  rw [ho]
  rfl

theorem stepC1_stream_skip (policy : List ToolPolicyRule) (st : C1State)
    (etype : String) (blockType : Option String) (ho : st.outcome = none) :
    stepC1 policy st (.streamEvent true etype blockType) = st := by
  unfold stepC1
  rw [ho]
  rfl

theorem stepC1_stream_none (policy : List ToolPolicyRule) (st : C1State)
    (etype : String) (blockType : Option String) (ho : st.outcome = none) :
    stepC1 policy st (.streamEvent false etype blockType) =
      (if etype = "content_block_start" ∧ blockType = some "thinking" then
        { st with events := st.events ++ [.thinking "Thinking..."] }
      else if etype = "content_block_start" ∧ blockType = some "text" then
        { st with events := st.events ++ [.thinking "Writing response..."] }
      else if etype = "message_start" then
        { st with events := st.events ++ [.thinking "Processing..."] }
      else st) := by
  unfold stepC1
  rw [ho]
  rfl

theorem stepC1_perm_none (policy : List ToolPolicyRule) (st : C1State)
    (tool inputJson detail : String) (ho : st.outcome = none) :
    stepC1 policy st (.permissionReq tool inputJson detail) =
      (match evaluateToolPolicy policy tool inputJson with
       | .allow => { st with events := st.events ++ [.toolStart tool detail] }
       | .deny => st
       | .passthrough => { st with outcome := some st.currentText }) := by
  unfold stepC1
  rw [ho]

theorem stepC1_toolres_none (policy : List ToolPolicyRule) (st : C1State)
    (tool : String) (isErr : Bool) (ho : st.outcome = none) :
    stepC1 policy st (.toolResultFrame tool isErr) =
      { st with events := st.events ++ [.toolResultE tool (!isErr)] } := by
  unfold stepC1
  rw [ho]

theorem stepC1_result_none (policy : List ToolPolicyRule) (st : C1State)
    (isError : Bool) (errors : List String) (result : Option String)
    (uIn uOut : Nat) (ho : st.outcome = none) :
    stepC1 policy st (.resultFrame isError errors result uIn uOut) =
      resultStep st isError errors result uIn uOut := by
  unfold stepC1
  rw [ho]

theorem stepC1_other_none (policy : List ToolPolicyRule) (st : C1State)
    (ho : st.outcome = none) : stepC1 policy st .otherFrame = st := by
  unfold stepC1
  rw [ho]

/-- One frame-processing step preserves the bookkeeping invariant. -/
theorem stepC1_inv (policy : List ToolPolicyRule) (st : C1State) (f : CFrame)
    (h : C1Inv st) : C1Inv (stepC1 policy st f) := by
  obtain ⟨h1, h2, h3⟩ := h
  cases ho : st.outcome with
  | some ft =>
    rw [stepC1_resolved policy st f ft ho]
    exact ⟨h1, h2, h3⟩
  | none =>
    have hct := h2 ho
    cases f with
    | assistant parentTool blocks uIn uOut =>
      cases parentTool with
      | true =>
        rw [stepC1_assistant_skip policy st blocks uIn uOut ho]
        exact ⟨h1, h2, h3⟩
      | false =>
        rw [stepC1_assistant_none policy st blocks uIn uOut ho]
        have hother := assistantBlocksStep_other blocks st
        have hinv := assistantBlocksStep_inv blocks st h1 hct
        have hono : (assistantBlocksStep st blocks).outcome = none :=
          hother.1.trans ho
        refine C1Inv_of_fields _
          { assistantBlocksStep st blocks with
            events := (assistantBlocksStep st blocks).events ++
              [.turn ((assistantBlocksStep st blocks).currentTurns + 1)] }
          rfl rfl rfl ?_
        exact inv_append_nondelta (assistantBlocksStep st blocks)
          (.turn ((assistantBlocksStep st blocks).currentTurns + 1))
          (fun t hcon => ProgressEvent.noConfusion hcon) hinv.1 hono hinv.2
    | streamEvent parentTool etype blockType =>
      cases parentTool with
      | true =>
        rw [stepC1_stream_skip policy st etype blockType ho]
        exact ⟨h1, h2, h3⟩
      | false =>
        rw [stepC1_stream_none policy st etype blockType ho]
        by_cases hthink : etype = "content_block_start" ∧ blockType = some "thinking"
        · rw [if_pos hthink]
          exact inv_append_nondelta st _ (fun t hcon => ProgressEvent.noConfusion hcon)
            h1 ho hct
        · rw [if_neg hthink]
          by_cases htext : etype = "content_block_start" ∧ blockType = some "text"
          · rw [if_pos htext]
            exact inv_append_nondelta st _ (fun t hcon => ProgressEvent.noConfusion hcon)
              h1 ho hct
          · rw [if_neg htext]
            by_cases hmsg : etype = "message_start"
            · rw [if_pos hmsg]
              exact inv_append_nondelta st _
                (fun t hcon => ProgressEvent.noConfusion hcon) h1 ho hct
            · rw [if_neg hmsg]
              exact ⟨h1, h2, h3⟩
    | permissionReq tool inputJson detail =>
      rw [stepC1_perm_none policy st tool inputJson detail ho]
      cases hd : evaluateToolPolicy policy tool inputJson with
      | allow =>
        exact inv_append_nondelta st _ (fun t hcon => ProgressEvent.noConfusion hcon)
          h1 ho hct
      | deny =>
        exact ⟨h1, h2, h3⟩
      | passthrough =>
        refine ⟨h1, ?_, ?_⟩
        · intro hcon
          exact Option.noConfusion hcon
        · intro ft hft hne
          have hfteq : ft = st.currentText := (Option.some.inj hft).symm
          rw [hfteq, hct]
    | toolResultFrame tool isErr =>
      rw [stepC1_toolres_none policy st tool isErr ho]
      exact inv_append_nondelta st _ (fun t hcon => ProgressEvent.noConfusion hcon)
        h1 ho hct
    | resultFrame isError errors result uIn uOut =>
      rw [stepC1_result_none policy st isError errors result uIn uOut ho]
      obtain ⟨l, msg, hev⟩ := resultStep_events_ex st isError errors result uIn uOut
      have hdc : deltaConcat (resultStep st isError errors result uIn uOut).events
          = deltaConcat st.events := by
        rw [hev]
        unfold deltaConcat
        rw [deltaTexts_append, deltaTexts_thinking_list, List.append_nil]
      refine ⟨?_, ?_, ?_⟩
      · intro t ht
        rw [hev] at ht
        rcases mem_delta_append _ _ t ht with hm | hm
        · exact h1 t hm
        · obtain ⟨n, _, hcon⟩ := List.mem_map.mp hm
          exact ProgressEvent.noConfusion hcon
      · intro hcon
        rw [resultStep_outcome] at hcon
        cases hcon
      · intro ft hft hne
        rw [resultStep_outcome] at hft
        have hft' : ft = (resultStep st isError errors result uIn uOut).currentText :=
          (Option.some.inj hft).symm
        rw [hdc] at hne
        have hcne : st.currentText ≠ "" := by
          rw [hct]
          exact hne
        rw [hft', resultStep_text_of_ne st isError errors result uIn uOut hcne, hct, hdc]
    | otherFrame =>
      rw [stepC1_other_none policy st ho]
      exact ⟨h1, h2, h3⟩

theorem C1Inv_init : C1Inv initC1 := by
  refine ⟨fun t ht => absurd ht (List.not_mem_nil _), fun _ => rfl, fun ft hft => ?_⟩
  exact absurd hft (by simp [initC1])

theorem foldC1_inv (policy : List ToolPolicyRule) (fs : List CFrame) :
    ∀ st : C1State, C1Inv st → C1Inv (fs.foldl (stepC1 policy) st) := by
  induction fs with
  | nil => intro st h; exact h
  | cons f rest ih => intro st h; exact ih (stepC1 policy st f) (stepC1_inv policy st f h)

/-- The run of a request window satisfies the bookkeeping invariant. -/
theorem runC1_inv (policy : List ToolPolicyRule) (fs : List CFrame) :
    C1Inv (runC1 policy fs) :=
  foldC1_inv policy fs initC1 C1Inv_init

theorem mem_deltaTexts (evs : List ProgressEvent) (t : String)
    (h : ProgressEvent.textDelta t ∈ evs) : t ∈ deltaTexts evs := by
  unfold deltaTexts
  exact List.mem_filterMap.mpr ⟨.textDelta t, h, rfl⟩

theorem textContents_append (a b : List Chunk) :
    textContents (a ++ b) = textContents a ++ textContents b := by
  simp [textContents, List.filter_append]

/-- The text contents of the progress chunks are exactly the delta texts. -/
theorem textContents_eventChunks (evs : List ProgressEvent)
    (hne : ∀ t : String, ProgressEvent.textDelta t ∈ evs → t ≠ "") :
    textContents (eventChunks evs) = deltaTexts evs := by
  induction evs with
  | nil => rfl
  | cons e rest ih =>
    have hne' : ∀ t : String, ProgressEvent.textDelta t ∈ rest → t ≠ "" :=
      fun t ht => hne t (List.mem_cons_of_mem e ht)
    have ihr := ih hne'
    cases e with
    | textDelta t =>
      have htne : t ≠ "" := hne t (List.mem_cons_self _ _)
      simp [eventChunks, List.filterMap_cons, chunkOfEvent, htne, textContents,
        List.filter_cons, deltaTexts] at ihr ⊢
      exact ihr
    | toolStart a b =>
      simp [eventChunks, List.filterMap_cons, chunkOfEvent, textContents,
        List.filter_cons, deltaTexts] at ihr ⊢
      exact ihr
    | toolResultE a b =>
      simp [eventChunks, List.filterMap_cons, chunkOfEvent, textContents,
        List.filter_cons, deltaTexts] at ihr ⊢
      exact ihr
    | thinking a =>
      simp [eventChunks, List.filterMap_cons, chunkOfEvent, textContents,
        List.filter_cons, deltaTexts] at ihr ⊢
      exact ihr
    | turn n =>
      simp [eventChunks, List.filterMap_cons, chunkOfEvent, textContents,
        List.filter_cons, deltaTexts] at ihr ⊢
      exact ihr

/-- A real delta chunk witnesses a non-empty `text_delta` event. -/
theorem exists_delta_of_chunk (evs : List ProgressEvent) :
    ∀ c : Chunk, c ∈ eventChunks evs → c.kind = .deltaK →
      ∃ t : String, t ≠ "" ∧ ProgressEvent.textDelta t ∈ evs := by
  induction evs with
  | nil => intro c hc _; simp [eventChunks] at hc
  | cons e rest ih =>
    intro c hc hk
    cases e with
    | textDelta t =>
      by_cases ht : t ≠ ""
      · have : eventChunks (ProgressEvent.textDelta t :: rest) =
            ⟨.deltaK, t⟩ :: eventChunks rest := by
          simp [eventChunks, List.filterMap_cons, chunkOfEvent, ht]
        rw [this] at hc
        rcases List.mem_cons.mp hc with rfl | hm
        · exact ⟨t, ht, List.mem_cons_self _ _⟩
        · obtain ⟨u, hu, hmem⟩ := ih c hm hk
          exact ⟨u, hu, List.mem_cons_of_mem _ hmem⟩
      · have : eventChunks (ProgressEvent.textDelta t :: rest) = eventChunks rest := by
          simp [eventChunks, List.filterMap_cons, chunkOfEvent, ht]
        rw [this] at hc
        obtain ⟨u, hu, hmem⟩ := ih c hc hk
        exact ⟨u, hu, List.mem_cons_of_mem _ hmem⟩
    | toolStart a b =>
      have : eventChunks (ProgressEvent.toolStart a b :: rest) =
          ⟨.toolStartK, "\n\n_" ++ b ++ "_\n\n"⟩ :: eventChunks rest := by
        simp [eventChunks, List.filterMap_cons, chunkOfEvent]
      rw [this] at hc
      rcases List.mem_cons.mp hc with rfl | hm
      · cases hk
      · obtain ⟨u, hu, hmem⟩ := ih c hm hk
        exact ⟨u, hu, List.mem_cons_of_mem _ hmem⟩
    | toolResultE a b =>
      have : eventChunks (ProgressEvent.toolResultE a b :: rest) =
          ⟨.toolResK, "_" ++ (if b then "✅" else "❌") ++ " " ++ a ++ " done_\n"⟩ ::
            eventChunks rest := by
        simp [eventChunks, List.filterMap_cons, chunkOfEvent]
      rw [this] at hc
      rcases List.mem_cons.mp hc with rfl | hm
      · cases hk
      · obtain ⟨u, hu, hmem⟩ := ih c hm hk
        exact ⟨u, hu, List.mem_cons_of_mem _ hmem⟩
    | thinking a =>
      have : eventChunks (ProgressEvent.thinking a :: rest) =
          ⟨.thinkK, "\n_🧠 " ++ a ++ "_\n"⟩ :: eventChunks rest := by
        simp [eventChunks, List.filterMap_cons, chunkOfEvent]
      rw [this] at hc
      rcases List.mem_cons.mp hc with rfl | hm
      · cases hk
      · obtain ⟨u, hu, hmem⟩ := ih c hm hk
        exact ⟨u, hu, List.mem_cons_of_mem _ hmem⟩
    | turn n =>
      have : eventChunks (ProgressEvent.turn n :: rest) = eventChunks rest := by
        simp [eventChunks, List.filterMap_cons, chunkOfEvent]
      rw [this] at hc
      obtain ⟨u, hu, hmem⟩ := ih c hc hk
      exact ⟨u, hu, List.mem_cons_of_mem _ hmem⟩

/-- The busy-wait status chunk carries no text content. -/
theorem textContents_status (statusChunk : Option String) :
    textContents (match statusChunk with
      | some p => [(⟨.statusK, p⟩ : Chunk)]
      | none => []) = [] := by
  cases statusChunk <;> rfl

/-- Decomposition of the text contents of a full SSE chunk list. -/
theorem textContents_sseChunks (statusChunk : Option String)
    (evs : List ProgressEvent) (finalText : String) :
    textContents (sseChunks statusChunk evs finalText) =
      textContents (eventChunks evs) ++
        (if eventChunks evs = [] ∧ finalText ≠ "" then [finalText] else []) := by
  unfold sseChunks
  rw [textContents_append, textContents_append, textContents_status,
    List.nil_append]
  congr 1
  by_cases hc : eventChunks evs = [] ∧ finalText ≠ ""
  · rw [if_pos hc, if_pos hc]
    rfl
  · rw [if_neg hc, if_neg hc]
    rfl

/-! ## Claim theorems -/

/-- General single-window fact behind the C1 amendment: for a stream whose
tap received exactly the events of a run resolving with final text `ft`,
the text-chunk concatenation equals `ft` whenever a real delta chunk was
emitted, and also whenever no progress chunk at all was emitted (the
finish-time full-text chunk then covers it). -/
theorem sseWindow_concat (policy : List ToolPolicyRule) (fs : List CFrame)
    (statusChunk : Option String) (ft : String)
    (hout : (runC1 policy fs).outcome = some ft) :
    ((∃ c ∈ sseChunks statusChunk (runC1 policy fs).events ft,
        c.kind = ChunkKind.deltaK) →
      textConcat (sseChunks statusChunk (runC1 policy fs).events ft) = ft) ∧
    (eventChunks (runC1 policy fs).events = [] →
      textConcat (sseChunks statusChunk (runC1 policy fs).events ft) = ft) := by
  obtain ⟨h1, h2, h3⟩ := runC1_inv policy fs
  constructor
  · rintro ⟨c, hc, hk⟩
    have hcev : c ∈ eventChunks (runC1 policy fs).events := by
      unfold sseChunks at hc
      rcases List.mem_append.mp hc with hl | hr
      · rcases List.mem_append.mp hl with hs | he
        · exfalso
          cases statusChunk with
          | none => exact absurd hs (List.not_mem_nil c)
          | some p =>
            have : c = ⟨.statusK, p⟩ := List.mem_singleton.mp hs
            rw [this] at hk
            exact ChunkKind.noConfusion hk
        · exact he
      · exfalso
        by_cases hcond : eventChunks (runC1 policy fs).events = [] ∧ ft ≠ ""
        · rw [if_pos hcond] at hr
          have : c = ⟨.finalK, ft⟩ := List.mem_singleton.mp hr
          rw [this] at hk
          exact ChunkKind.noConfusion hk
        · rw [if_neg hcond] at hr
          exact absurd hr (List.not_mem_nil c)
    obtain ⟨t, htne, hmem⟩ := exists_delta_of_chunk _ c hcev hk
    have hdcne : deltaConcat (runC1 policy fs).events ≠ "" :=
      concatStrings_ne_empty_of_mem _ t (mem_deltaTexts _ t hmem) htne
    have hft : ft = deltaConcat (runC1 policy fs).events := h3 ft hout hdcne
    have hevnil : eventChunks (runC1 policy fs).events ≠ [] := by
      intro hnil
      rw [hnil] at hcev
      exact absurd hcev (List.not_mem_nil c)
    unfold textConcat
    rw [textContents_sseChunks, if_neg (fun hcon => hevnil hcon.1), List.append_nil,
      textContents_eventChunks _ h1]
    exact hft.symm
  · intro hnil
    unfold textConcat
    rw [textContents_sseChunks, hnil]
    by_cases hft : ft = ""
    · rw [if_neg (fun hcon => hcon.2 hft)]
      simp [textContents, concatStrings, hft]
    · rw [if_pos ⟨rfl, hft⟩]
      simp [textContents, concatStrings]

/-- C1 (counterexample): two refutations of the claim as stated.
First, on a direct-path run whose only progress event is the
`message_start` thinking decoration and whose text arrives only in the
`result` frame, the final text is `"hello"`, no `text_delta` event was
emitted, yet the concatenated non-decoration `delta.content` is empty and
no finish-time full-text chunk is sent: the `streamed` flag
(adapter.ts:1497-1515) is set by decoration chunks too.  Second, on a
busy-wait stream (adapter.ts:1500, 2012-2040) the tap also receives the
previous in-flight request's deltas (here `"OLD"`), so even with the
decoration and status chunks excluded the concatenation is not this
request's final text. -/
theorem c1_counterexample :
    ((runC1 (DEFAULT_POLICY .auto)
      [.streamEvent false "message_start" none,
       .resultFrame false [] (some "hello") 0 0]).outcome = some "hello" ∧
    deltaTexts (runC1 (DEFAULT_POLICY .auto)
      [.streamEvent false "message_start" none,
       .resultFrame false [] (some "hello") 0 0]).events = [] ∧
    claimConcat (sseChunks none (runC1 (DEFAULT_POLICY .auto)
      [.streamEvent false "message_start" none,
       .resultFrame false [] (some "hello") 0 0]).events "hello") ≠ "hello" ∧
    (∀ c ∈ sseChunks none (runC1 (DEFAULT_POLICY .auto)
      [.streamEvent false "message_start" none,
       .resultFrame false [] (some "hello") 0 0]).events "hello",
      c.kind ≠ ChunkKind.finalK)) ∧
    ((runC1 (DEFAULT_POLICY .auto)
      [.assistant false [⟨"text", "hi"⟩] 1 2,
       .resultFrame false [] none 0 0]).outcome = some "hi" ∧
    claimConcat (sseChunks (some "⏳ _Previous task still running, waiting..._\n\n")
      (ProgressEvent.textDelta "OLD" :: (runC1 (DEFAULT_POLICY .auto)
        [.assistant false [⟨"text", "hi"⟩] 1 2,
         .resultFrame false [] none 0 0]).events) "hi") ≠ "hi" ∧
    textConcat (sseChunks (some "⏳ _Previous task still running, waiting..._\n\n")
      (ProgressEvent.textDelta "OLD" :: (runC1 (DEFAULT_POLICY .auto)
        [.assistant false [⟨"text", "hi"⟩] 1 2,
         .resultFrame false [] none 0 0]).events) "hi") ≠ "hi") := by
  decide

/-- C1 (amended): for every streaming chat-completions request dispatched on
a session that is not busy and not raced by a concurrent request on the same
session — the single-consumer discipline the spec assumes, under which the
stream's tap, installed synchronously with `sendPrompt` and detached at
resolution, receives exactly this request's progress events — concatenating
the `delta.content` of the text chunks (real deltas plus the finish-time
chunk, excluding the decoration chunks) equals the final text whenever at
least one real `text_delta` chunk was emitted; and if no progress chunk of
any kind was emitted, the full text is sent as a single finish-time chunk,
so the concatenation again equals the final text.  (If only decoration
chunks were emitted, the full text is not re-sent; busy-wait streams, whose
tap also receives the previous request's events, are excluded.) -/
theorem c1_amended (policy : List ToolPolicyRule) (fs : List CFrame) (ft : String)
    (hout : (runC1 policy fs).outcome = some ft) :
    ((∃ c ∈ sseChunks none (runC1 policy fs).events ft,
        c.kind = ChunkKind.deltaK) →
      textConcat (sseChunks none (runC1 policy fs).events ft) = ft) ∧
    (eventChunks (runC1 policy fs).events = [] →
      textConcat (sseChunks none (runC1 policy fs).events ft) = ft) :=
  sseWindow_concat policy fs none ft hout

/-- C1 (witness for the amended theorem): a run with one assistant text
block and a terminal result; the delta chunk is present and the chunk
concatenation reproduces the final text. -/
theorem c1_amended_witness :
    textConcat (sseChunks none (runC1 (DEFAULT_POLICY .auto)
      [.assistant false [⟨"text", "hi"⟩] 1 2,
       .resultFrame false [] none 0 0]).events "hi") = "hi" :=
  (c1_amended (DEFAULT_POLICY .auto)
    [.assistant false [⟨"text", "hi"⟩] 1 2, .resultFrame false [] none 0 0]
    "hi" (by decide)).1 (by decide)

/-- C2 (counterexample): after `sendPrompt` followed by a passthrough
`permission_request`, the session sits in `waiting_tool_decision` with a
null resolve handle (the passthrough transition resolves the in-flight
request and clears the handles as it enters that state,
adapter.ts:808-822), so the claimed iff fails at a reachable state. -/
theorem c2_counterexample :
    ¬(((runSess [.sendPrompt, .framePermission .passthrough]).st = .busy ∨
        (runSess [.sendPrompt, .framePermission .passthrough]).st =
          .waitingToolDecision) ↔
      (runSess [.sendPrompt, .framePermission .passthrough]).pending ≠ none) := by
  decide

/-- C2 (amended): along every session event trace, a `busy` session always
holds a non-null resolve handle, and a session in `waiting_tool_decision`
always holds a null one — its request was already resolved, and the handle
cleared, at the passthrough transition. -/
theorem c2_amended (tr : List SessEv) :
    ((runSess tr).st = .busy → (runSess tr).pending ≠ none) ∧
    ((runSess tr).st = .waitingToolDecision → (runSess tr).pending = none) := by
  have h := foldl_invHandles tr initSess (by constructor <;> intro hcon <;> cases hcon)
  exact h

/-- C2 (witness): right after `sendPrompt` the session is busy and the
handle is installed. -/
theorem c2_witness : (runSess [SessEv.sendPrompt]).pending ≠ none :=
  (c2_amended [SessEv.sendPrompt]).1 (by decide)

/-- C4 (code bug evaluation): the request installed by the tool-result
continuation (request 1) is settled twice.  `waitForContinuation`'s timeout
handler (adapter.ts:1855-1860) rejects through its captured handle but —
unlike `sendPrompt`'s timeout (adapter.ts:526-533) — does not null
`pendingResolve`/`pendingReject`, so the later `result` frame resolves the
already-rejected promise. -/
theorem c4_double_settle :
    (runSess [.sendPrompt, .framePermission .passthrough, .toolContinuation,
      .timeoutFire, .frameResult]).rejects.count 1 = 1 ∧
    (runSess [.sendPrompt, .framePermission .passthrough, .toolContinuation,
      .timeoutFire, .frameResult]).resolves.count 1 = 1 ∧
    settleCount (runSess [.sendPrompt, .framePermission .passthrough,
      .toolContinuation, .timeoutFire, .frameResult]) 1 = 2 ∧
    (runSess [.sendPrompt, .framePermission .passthrough,
      .toolContinuation]).st = .busy := by
  decide

/-- C3 (counterexample): with `MAX_SESSIONS = 1` and a single busy session,
creating a session for a new key leaves two sessions in the pool — the
overflow loop (adapter.ts:1015-1028) cannot evict a busy session and gives
up, so the claimed size bound fails. -/
theorem c3_counterexample :
    ¬((getSessionModel 1 [⟨"a", SessState.busy, 0⟩] "b"
        ⟨"b", SessState.connecting, 5⟩).length ≤ 1) := by
  decide

/-- C3 (amended): when a new session must be created (no live entry under
the key) and fewer than `MAX_SESSIONS` sessions are in the never-evicted
working states (`busy`, `waiting_tool_decision`, `connecting`), the pool
afterwards holds at most `MAX_SESSIONS` sessions; and whenever the overflow
scan selects a victim, it is a `ready` session (dead entries having been
swept first) with the oldest `last_activity_at` among the evictable
entries. -/
theorem c3_amended (maxS : Nat) (l : List PoolSession) (key : String)
    (fresh : PoolSession)
    (hmiss : ∀ s ∈ l, s.key = key → s.state = SessState.dead)
    (hroom : countWorking l < maxS) :
    (getSessionModel maxS l key fresh).length ≤ maxS ∧
    (∀ o : PoolSession, findOldest (sweepDead l) = some o →
      o.state = SessState.ready ∧
      ∀ t ∈ sweepDead l, isEvictable t = true →
        o.lastActivityAt ≤ t.lastActivityAt) := by
  constructor
  · unfold getSessionModel
    cases hf : l.find? (fun s => s.key == key) with
    | none => exact create_path_le maxS l fresh hroom
    | some s =>
      have hsl : s ∈ l := List.mem_of_find?_eq_some hf
      have hkey : s.key = key := by
        have := List.find?_some hf
        simpa using this
      have hdead : s.state = SessState.dead := hmiss s hsl hkey
      show (if s.state ≠ SessState.dead then l
        else evictIfNeeded maxS l ++ [fresh]).length ≤ maxS
      rw [if_neg (fun hcon => hcon hdead)]
      exact create_path_le maxS l fresh hroom
  · intro o hf
    have hmem : o ∈ sweepDead l := by
      rcases findOldestAux_mem (sweepDead l) none o hf with h | h
      · cases h
      · exact h
    have hev : isEvictable o = true :=
      findOldestAux_evictable (sweepDead l) none
        (fun a ha => Option.noConfusion ha) o hf
    have hnd : o.state ≠ SessState.dead := by
      have := List.of_mem_filter hmem
      simpa using this
    have hready : o.state = SessState.ready := by
      unfold isEvictable at hev
      rcases Bool.or_eq_true_iff.mp hev with h | h
      · simpa using h
      · exact absurd (by simpa using h) hnd
    exact ⟨hready, fun t ht hevt => findOldestAux_min (sweepDead l) none o hf t ht hevt⟩

/-- C3 (witness): two ready sessions, limit two, creating a third key keeps
the pool at the limit. -/
theorem c3_witness :
    (getSessionModel 2 [⟨"a", SessState.ready, 5⟩, ⟨"b", SessState.ready, 3⟩]
      "c" ⟨"c", SessState.connecting, 9⟩).length ≤ 2 :=
  (c3_amended 2 [⟨"a", SessState.ready, 5⟩, ⟨"b", SessState.ready, 3⟩] "c"
    ⟨"c", SessState.connecting, 9⟩ (by decide) (by decide)).1

/-- C5 (counterexample): after a compaction recorded `lastSummaryPct = 40`,
the `!bridge compact` command (adapter.ts:1951-1957) resets it to 0 — the
value is not monotone over sequences that include `!bridge` commands, which
the claim explicitly covers. -/
theorem c5_counterexample :
    (runCtx 40 20 ⟨0, 0⟩ [.resultPct 40, .wrapPost true]).lastSummaryPct = 40 ∧
    (runCtx 40 20 ⟨0, 0⟩
      [.resultPct 40, .wrapPost true, .bridgeCompact]).lastSummaryPct = 0 := by
  decide

/-- C5 (amended): `lastSummaryPct` is monotone non-decreasing over every
sequence of prompts and result frames that contains no `!bridge compact`
command; `compact` resets it to 0 by design. -/
theorem c5_amended (triggerPct recompactPct : Nat) (s : CtxState) (ops : List CtxOp)
    (h : CtxOp.bridgeCompact ∉ ops) :
    s.lastSummaryPct ≤ (runCtx triggerPct recompactPct s ops).lastSummaryPct :=
  runCtx_mono triggerPct recompactPct ops s h

/-- C5 (witness): a compact-free trace crossing the trigger threshold. -/
theorem c5_witness :
    CtxOp.bridgeCompact ∉ [CtxOp.resultPct 50, CtxOp.wrapPost true] ∧
    (⟨0, 0⟩ : CtxState).lastSummaryPct ≤
      (runCtx 40 20 ⟨0, 0⟩ [CtxOp.resultPct 50, CtxOp.wrapPost true]).lastSummaryPct :=
  ⟨by decide, c5_amended 40 20 ⟨0, 0⟩ [CtxOp.resultPct 50, CtxOp.wrapPost true]
    (by decide)⟩

/-- C6 (counterexample): two requests carrying an identical — but empty —
`X-Session-Key` header derive different keys (JS truthiness lets the empty
header fall through to the model branch, adapter.ts:1390-1391), and neither
key has the claimed `key:<value>` shape. -/
theorem c6_counterexample :
    (⟨some "", none, "u1", some "a", ""⟩ : ChatRequestMeta).xSessionKey =
      (⟨some "", none, "u2", some "b", ""⟩ : ChatRequestMeta).xSessionKey ∧
    deriveSessionKey ⟨some "", none, "u1", some "a", ""⟩ ≠
      deriveSessionKey ⟨some "", none, "u2", some "b", ""⟩ ∧
    deriveSessionKey ⟨some "", none, "u1", some "a", ""⟩ ≠ "key:" := by
  decide

/-- C6 (amended): session-key derivation depends only on the `X-Session-Key`
header and the body `model` field.  A non-empty header value `v` yields
`key:<v>`; with the header absent or empty, a model whose trim is non-empty
yields `model:<trimmed value>`; otherwise the key is `default`.  The key
never depends on `X-Request-Id`, the per-request UUID, or system-role
message content. -/
theorem c6_amended :
    (∀ (r : ChatRequestMeta) (v : String), r.xSessionKey = some v → v ≠ "" →
      deriveSessionKey r = "key:" ++ v) ∧
    (∀ (r : ChatRequestMeta) (m : String),
      (r.xSessionKey = none ∨ r.xSessionKey = some "") → r.model = some m →
      strTrim m ≠ "" → deriveSessionKey r = "model:" ++ strTrim m) ∧
    (∀ r : ChatRequestMeta,
      (r.xSessionKey = none ∨ r.xSessionKey = some "") →
      (r.model = none ∨ ∃ m : String, r.model = some m ∧ strTrim m = "") →
      deriveSessionKey r = "default") ∧
    (∀ (r : ChatRequestMeta) (rid : Option String) (uuid sys : String),
      deriveSessionKey
        { r with xRequestId := rid, requestUuid := uuid, systemContent := sys } =
        deriveSessionKey r) := by
  refine ⟨?_, ?_, ?_, ?_⟩
  · intro r v hv hne
    unfold deriveSessionKey
    rw [hv]
    show (if v ≠ "" then "key:" ++ v else modelBranch r) = "key:" ++ v
    rw [if_pos hne]
  · intro r m hkey hm hne
    have hmb : modelBranch r = "model:" ++ strTrim m := by
      unfold modelBranch
      rw [hm]
      show (if strTrim m ≠ "" then "model:" ++ strTrim m else "default") =
        "model:" ++ strTrim m
      rw [if_pos hne]
    rcases hkey with h | h
    · unfold deriveSessionKey
      rw [h]
      exact hmb
    · unfold deriveSessionKey
      rw [h]
      show (if ("" : String) ≠ "" then "key:" ++ "" else modelBranch r) =
        "model:" ++ strTrim m
      rw [if_neg (by simp)]
      exact hmb
  · intro r hkey hmod
    have hmb : modelBranch r = "default" := by
      unfold modelBranch
      rcases hmod with h | ⟨m, hm, ht⟩
      · rw [h]
      · rw [hm]
        show (if strTrim m ≠ "" then "model:" ++ strTrim m else "default") = "default"
        rw [if_neg (by simpa using ht)]
    rcases hkey with h | h
    · unfold deriveSessionKey
      rw [h]
      exact hmb
    · unfold deriveSessionKey
      rw [h]
      show (if ("" : String) ≠ "" then "key:" ++ "" else modelBranch r) = "default"
      rw [if_neg (by simp)]
      exact hmb
  · intro r rid uuid sys
    rfl

/-- C6 (witness): the three key shapes at concrete requests, with differing
request ids, UUIDs and system content. -/
theorem c6_witness :
    deriveSessionKey ⟨some "alpha", some "rid-1", "uuid-1", some "m", "sys-a"⟩ =
      "key:" ++ "alpha" ∧
    deriveSessionKey ⟨none, some "rid-2", "uuid-2", some " gpt ", "sys-b"⟩ =
      "model:" ++ strTrim " gpt " ∧
    deriveSessionKey ⟨none, none, "uuid-3", none, ""⟩ = "default" :=
  ⟨c6_amended.1 ⟨some "alpha", some "rid-1", "uuid-1", some "m", "sys-a"⟩ "alpha"
      rfl (by decide),
   c6_amended.2.1 ⟨none, some "rid-2", "uuid-2", some " gpt ", "sys-b"⟩ " gpt "
      (Or.inl rfl) rfl (by decide),
   c6_amended.2.2.1 ⟨none, none, "uuid-3", none, ""⟩ (Or.inl rfl) (Or.inl rfl)⟩

/-- C7 (confirmed): `evaluateToolPolicy` returns the action of the first
rule whose tool is `"*"` or equals the tool name ignoring case and whose
optional `input_contains` substring occurs in the JSON-serialized input;
with no matching rule the decision is `allow`. -/
theorem c7_first_match (policy : List ToolPolicyRule) (toolName inputJson : String) :
    evaluateToolPolicy policy toolName inputJson =
      ((policy.find? (fun r => claimRuleMatches r toolName inputJson)).map
        ToolPolicyRule.action).getD .allow :=
  evaluateToolPolicy_eq_find policy toolName inputJson

/-- C8 (counterexample): two refutations of the claim as stated.  A
`!bridge status` request on a key with no live session creates one
Companion session before the command is intercepted — `pool.getSession`
runs ahead of the `!bridge` test (adapter.ts:1820-1834 vs 1913-1995).  And
a `!bridge status` request carrying one `role=tool` message while the
session is in `waiting_tool_decision` is consumed by the tool-results
branch (adapter.ts:1838-1878), which forwards the decision upstream and
answers with the upstream continuation: no local response is synthesized at
all. -/
theorem c8_counterexample :
    (handleBridgeRouting false false 0 "!bridge status").sessionsCreated = 1 ∧
    (handleBridgeRouting false false 0 "!bridge status").userMessagesSent = 0 ∧
    (handleBridgeRouting false false 0 "!bridge status").localResponse = true ∧
    (handleBridgeRouting true true 1 "!bridge status").localResponse = false ∧
    (handleBridgeRouting true true 1 "!bridge status").toolContinuationTaken
      = true := by
  decide

/-- C8 (amended): for every request whose latest user text starts (after
trimming and lowercasing) with `!bridge`: unless the request carries
`role=tool` messages with a `tool_call_id` while the session is in
`waiting_tool_decision`, the adapter synthesizes a local response and sends
no `user_message` frame upstream, while a Companion session is still
acquired first and created when the pool has no live entry for the key; in
the excepted case the tool-results branch preempts command interception,
forwards the decisions upstream and answers with the upstream continuation
instead of a local response (still sending no `user_message`). -/
theorem c8_amended (poolHasLive sessionWaiting : Bool) (toolResultCount : Nat)
    (userText : String)
    (h : strStartsWith (strToLower (strTrim userText)) "!bridge" = true) :
    (¬(0 < toolResultCount ∧ sessionWaiting = true) →
      (handleBridgeRouting poolHasLive sessionWaiting toolResultCount
        userText).localResponse = true ∧
      (handleBridgeRouting poolHasLive sessionWaiting toolResultCount
        userText).userMessagesSent = 0 ∧
      (handleBridgeRouting poolHasLive sessionWaiting toolResultCount
        userText).toolContinuationTaken = false ∧
      (handleBridgeRouting poolHasLive sessionWaiting toolResultCount
        userText).sessionsCreated = (if poolHasLive then 0 else 1)) ∧
    ((0 < toolResultCount ∧ sessionWaiting = true) →
      (handleBridgeRouting poolHasLive sessionWaiting toolResultCount
        userText).localResponse = false ∧
      (handleBridgeRouting poolHasLive sessionWaiting toolResultCount
        userText).userMessagesSent = 0 ∧
      (handleBridgeRouting poolHasLive sessionWaiting toolResultCount
        userText).toolContinuationTaken = true) := by
  have hne : userText ≠ "" := by
    intro he
    rw [he] at h
    exact absurd h (by decide)
  constructor
  · intro hpre
    unfold handleBridgeRouting
    rw [if_neg hpre, if_neg hne, if_pos h]
    exact ⟨rfl, rfl, rfl, rfl⟩
  · intro hcond
    unfold handleBridgeRouting
    rw [if_pos hcond]
    exact ⟨rfl, rfl, rfl⟩

/-- C8 (witness): a `!bridge compact` request against a live, non-waiting
session with no tool-result messages. -/
theorem c8_witness :
    (handleBridgeRouting true false 0 "!bridge compact").localResponse = true ∧
    (handleBridgeRouting true false 0 "!bridge compact").userMessagesSent = 0 ∧
    (handleBridgeRouting true false 0 "!bridge compact").toolContinuationTaken
      = false ∧
    (handleBridgeRouting true false 0 "!bridge compact").sessionsCreated =
      (if true then 0 else 1) :=
  (c8_amended true false 0 "!bridge compact" (by decide)).1 (by decide)

/-- C9 (counterexample): under `CONTEXT_STRATEGY = none` the wrapper returns
before the marking (adapter.ts:1139-1140), so `contextRecoveryDone` stays
false after its first run even though context files exist. -/
theorem c9_counterexample :
    (wrapPromptWithContext .none "SUMMARY" "STATE" "hi"
      ⟨false⟩).2.contextRecoveryDone = false := by
  decide

/-- C9 (amended): for every strategy other than `none`, after
`wrapPromptWithContext` runs the session's `contextRecoveryDone` flag is
true, regardless of whether any context file content was found or
non-empty. -/
theorem c9_amended (strategy : Strategy) (summaryContent stateContent prompt : String)
    (s : RecSession) (h : strategy ≠ .none) :
    (wrapPromptWithContext strategy summaryContent stateContent prompt
      s).2.contextRecoveryDone = true := by
  unfold wrapPromptWithContext
  rw [if_neg h]
  by_cases hd : s.contextRecoveryDone
  · rw [if_pos hd]
    exact hd
  · rw [if_neg hd]
    by_cases h1 : (strategy = Strategy.summary ∨ strategy = Strategy.hybrid) ∧
        summaryContent ≠ ""
    · by_cases h2 : (strategy = Strategy.stateful ∨ strategy = Strategy.hybrid) ∧
          stateContent ≠ ""
      · simp [h1, h2]
      · simp [h1, h2]
    · by_cases h2 : (strategy = Strategy.stateful ∨ strategy = Strategy.hybrid) ∧
          stateContent ≠ ""
      · simp [h1, h2]
      · simp [h1, h2]

/-- C9 (witness): strategy `summary` with both files empty still marks the
flag. -/
theorem c9_witness :
    (wrapPromptWithContext .summary "" "" "hi" ⟨false⟩).2.contextRecoveryDone = true :=
  c9_amended .summary "" "" "hi" ⟨false⟩ (by decide)

/-- C10 (confirmed): with the default policy in effect, `evaluateToolPolicy`
never returns `deny`; under `TOOL_MODE = auto` every decision is `allow`;
under `TOOL_MODE = passthrough` the decision is `allow` exactly for the
tools Read, Glob, Grep, WebSearch, Task (case-insensitively) and
`passthrough` for every other tool. -/
theorem c10_default_policy (mode : ToolMode) (tn inp : String) :
    evaluateToolPolicy (DEFAULT_POLICY mode) tn inp ≠ .deny ∧
    (mode = .auto → evaluateToolPolicy (DEFAULT_POLICY mode) tn inp = .allow) ∧
    (mode = .passthrough →
      evaluateToolPolicy (DEFAULT_POLICY mode) tn inp =
        (if strToLower tn ∈ (["read", "glob", "grep", "websearch", "task"] : List String)
         then ToolAction.allow else ToolAction.passthrough)) := by
  rw [eval_default_policy mode tn inp]
  refine ⟨?_, ?_, ?_⟩
  · by_cases hm : strToLower tn ∈ (["read", "glob", "grep", "websearch", "task"] :
        List String)
    · rw [if_pos hm]
      exact fun hcon => ToolAction.noConfusion hcon
    · rw [if_neg hm]
      cases mode <;> exact fun hcon => ToolAction.noConfusion hcon
  · intro hm
    subst hm
    by_cases hmem : strToLower tn ∈ (["read", "glob", "grep", "websearch", "task"] :
        List String)
    · rw [if_pos hmem]
    · rw [if_neg hmem]
  · intro hm
    subst hm
    by_cases hmem : strToLower tn ∈ (["read", "glob", "grep", "websearch", "task"] :
        List String)
    · rw [if_pos hmem]
    · rw [if_neg hmem]

/-- C10 (witness): concrete decisions under both modes. -/
theorem c10_witness :
    evaluateToolPolicy (DEFAULT_POLICY .auto) "Bash" "x" = .allow ∧
    evaluateToolPolicy (DEFAULT_POLICY .passthrough) "Write" "x" = .passthrough ∧
    evaluateToolPolicy (DEFAULT_POLICY .passthrough) "READ" "x" = .allow := by
  refine ⟨(c10_default_policy .auto "Bash" "x").2.1 rfl, ?_, ?_⟩
  · have h := (c10_default_policy .passthrough "Write" "x").2.2 rfl
    rw [h]
    decide
  · have h := (c10_default_policy .passthrough "READ" "x").2.2 rfl
    rw [h]
    decide

end CompanionBridge
